import Mathlib

/-!
Verification of the track-matching engine (`src/matcher_v2.py`) and the
streaming favorites-sync driver (`src/async_sync.py`) of the
spotify2qobuz-web repository, together with the slice of the Qobuz client
(`src/qobuz_client.py`) they depend on (`search_by_isrc`, raw track search).

The embedding is executable throughout.  Python strings are `List Char`
(inputs are single-line; `str.lower`/`str.upper` are modelled on the ASCII
fragment, and Unicode NFD accent folding on the Latin-1 fragment — all
concrete strings exercised below are ASCII).  Python floats are modelled as
exact rationals.  The regular-expression substitutions of the matcher are
implemented as direct left-to-right scanners that mirror the leftmost-match,
continue-after-match semantics of `re.sub`, including the relevant
greedy/lazy backtracking behaviour of each concrete pattern.  The external
rapidfuzz library is modelled by its documented semantics: `fuzz.ratio` is
the normalized InDel similarity `200*LCS/(len1+len2)`, `token_sort_ratio`
and `token_set_ratio` are word-sort/word-set variants of it, and
`fuzz.partial_ratio` is the best `ratio` over the alignments of the shorter
string inside the longer one.  The optional jellyfish phonetic scorer is
modelled as absent (`HAS_JELLYFISH = False`), the configuration the code
falls back to when the import fails.

HTTP transport is an oracle `QobuzApi` whose `trackSearch` either returns a
response or fails; the client code catches all exceptions, which the
embedding mirrors by matching on the `Except`.
-/

namespace S2Q

/-- Whitespace characters of Python's regex `\s` and of `str.split()`/`str.strip()`
(ASCII fragment). -/
def isWs (c : Char) : Bool :=
  c = ' ' || c = '\t' || c = '\n' || c = '\r' || c = '\x0b' || c = '\x0c'

/-- `str.strip()`. -/
def trimWs (s : List Char) : List Char :=
  ((s.dropWhile isWs).reverse.dropWhile isWs).reverse

/-- `str.split()` helper: accumulate the current word (reversed). -/
def splitWsAux : List Char → List Char → List (List Char)
  | [], acc => if acc.isEmpty then [] else [acc.reverse]
  | c :: rest, acc =>
    if isWs c then
      if acc.isEmpty then splitWsAux rest [] else acc.reverse :: splitWsAux rest []
    else splitWsAux rest (c :: acc)

/-- `str.split()` with no argument: split on whitespace runs, no empty parts. -/
def splitWs (s : List Char) : List (List Char) := splitWsAux s []

/-- `' '.join(words)`. -/
def joinSp : List (List Char) → List Char
  | [] => []
  | [w] => w
  | w :: v :: rest => w ++ ' ' :: joinSp (v :: rest)

/-- `big.startswith(pre)` on char lists. -/
def startsWith : List Char → List Char → Bool
  | _, [] => true
  | [], _ :: _ => false
  | a :: as', b :: bs => a = b && startsWith as' bs

/-- Python's `sub in big` substring test. -/
def strContains (big sub : List Char) : Bool :=
  match big with
  | [] => sub.isEmpty
  | _ :: rest => startsWith big sub || strContains rest sub

/-- Case-insensitive `startsWith` (keyword `kw` given in lowercase); models a
`re.IGNORECASE` literal match on ASCII. -/
def startsWithCI (s : List Char) (kw : List Char) : Bool :=
  startsWith (s.map Char.toLower) kw

/-- The base letter left after `unicodedata.normalize('NFD', ·)` followed by
removal of category-Mn combining marks, for the lowercase Latin-1 letters that
canonically decompose; identity on every other character. -/
def latinBase (c : Char) : Char :=
  if ['à', 'á', 'â', 'ã', 'ä', 'å'].contains c then 'a'
  else if c = 'ç' then 'c'
  else if ['è', 'é', 'ê', 'ë'].contains c then 'e'
  else if ['ì', 'í', 'î', 'ï'].contains c then 'i'
  else if c = 'ñ' then 'n'
  else if ['ò', 'ó', 'ô', 'õ', 'ö'].contains c then 'o'
  else if ['ù', 'ú', 'û', 'ü'].contains c then 'u'
  else if ['ý', 'ÿ'].contains c then 'y'
  else c

def isOpenBr (c : Char) : Bool := c = '(' || c = '['

def isCloseBr (c : Char) : Bool := c = ')' || c = ']'

/-!
### `FEAT_PATTERN`

`\s*[\(\[](feat\.?|ft\.?|featuring|with|prod\.?|produced by)[^\)\]]*[\)\]]`,
applied by `_normalize` to an already-lowercased string.  A match is: optional
whitespace, an opening bracket, text starting with one of the keywords
(`feat`/`featuring` share the prefix `feat`, `prod`/`produced by` share
`prod`; the optional dot and the rest of a keyword are absorbed by the
`[^\)\]]*` class), then everything up to the first closing bracket.
-/

/-- Try to match `FEAT_PATTERN` at the head of `s`; on success return the
suffix after the match. -/
def featMatchAt (s : List Char) : Option (List Char) :=
  match s.dropWhile isWs with
  | c :: rest =>
    if isOpenBr c &&
        (startsWith rest "feat".data || startsWith rest "ft".data ||
         startsWith rest "with".data || startsWith rest "prod".data) then
      match rest.dropWhile (fun x => !isCloseBr x) with
      | _ :: rest3 => some rest3
      | [] => none
    else none
  | [] => none

/-- Fuel-indexed `re.sub(FEAT_PATTERN, '', s)` scanner: at each position try
the pattern; on success continue after the match, otherwise keep the char and
advance.  `fuel = s.length` always suffices because a match consumes at least
two characters. -/
def subFeatF : Nat → List Char → List Char
  | 0, _ => []
  | fuel + 1, s =>
    match featMatchAt s with
    | some t => subFeatF fuel t
    | none =>
      match s with
      | [] => []
      | c :: rest => c :: subFeatF fuel rest

def subFeat (s : List Char) : List Char := subFeatF s.length s

/-!
### `REMASTER_PATTERN`

`\s*[\(\[].*?(remaster|remix|version|edit|mix|live|acoustic|radio|single|album|deluxe|bonus|extended|original|anniversary|\d{4}).*?[\)\]]`.
After the opening bracket the lazy `.*?` walks to the earliest keyword
occurrence (it may cross closing brackets but not a newline), and the second
lazy `.*?` then extends to the first closing bracket after the keyword.  At a
given position at most one alternative of the keyword alternation can match,
and if no closing bracket follows the earliest keyword then no backtracking
branch can succeed either, so the scanner below is exact.
-/

def remKeywords : List (List Char) :=
  ["remaster".data, "remix".data, "version".data, "edit".data, "mix".data,
   "live".data, "acoustic".data, "radio".data, "single".data, "album".data,
   "deluxe".data, "bonus".data, "extended".data, "original".data,
   "anniversary".data]

def isDigitC (c : Char) : Bool := '0' ≤ c && c ≤ '9'

/-- Length consumed by the keyword alternation (incl. `\d{4}`) matching at the
head of `s`, if any. -/
def remKwAt (s : List Char) : Option Nat :=
  match remKeywords.find? (fun kw => startsWith s kw) with
  | some kw => some kw.length
  | none =>
    match s with
    | a :: b :: c :: d :: _ =>
      if isDigitC a && isDigitC b && isDigitC c && isDigitC d then some 4 else none
    | _ => none

/-- Scan the region after the opening bracket: find the earliest keyword, then
the first closing bracket after it; `.` cannot cross a newline. -/
def remScan : List Char → Option (List Char)
  | [] => none
  | c :: rest =>
    if c = '\n' then none
    else
      match remKwAt (c :: rest) with
      | some L =>
        let after := (c :: rest).drop L
        let mid := after.takeWhile (fun x => !isCloseBr x && x ≠ '\n')
        match after.drop mid.length with
        | c2 :: rest3 => if isCloseBr c2 then some rest3 else none
        | [] => none
      | none => remScan rest

/-- Try to match `REMASTER_PATTERN` at the head of `s`. -/
def remMatchAt (s : List Char) : Option (List Char) :=
  match s.dropWhile isWs with
  | c :: rest => if isOpenBr c then remScan rest else none
  | [] => none

/-- Fuel-indexed `re.sub(REMASTER_PATTERN, '', s)` scanner. -/
def subRemF : Nat → List Char → List Char
  | 0, _ => []
  | fuel + 1, s =>
    match remMatchAt s with
    | some t => subRemF fuel t
    | none =>
      match s with
      | [] => []
      | c :: rest => c :: subRemF fuel rest

def subRem (s : List Char) : List Char := subRemF s.length s

/-!
### `FEAT_INLINE_PATTERN`

`\s+(feat\.?|ft\.?|featuring|with)\s+.+$` — removes from the first such
occurrence to the end of the (single-line) string.
-/

/-- The tail `\s+.+$` on a single-line string: at least one whitespace char
followed by at least one further character (`.` may itself match whitespace
after backtracking). -/
def wsPlusDotPlus (t : List Char) : Bool :=
  match t with
  | c :: _ :: _ => isWs c
  | _ => false

/-- The keyword alternation of `FEAT_INLINE_PATTERN` (ordered, with the
`\.?` backtracking) followed by `\s+.+$`, matching at `s`. -/
def inlineKwTail (s : List Char) : Bool :=
  (startsWith s "feat".data &&
    ((startsWith (s.drop 4) ".".data && wsPlusDotPlus (s.drop 5)) ||
     wsPlusDotPlus (s.drop 4))) ||
  (startsWith s "ft".data &&
    ((startsWith (s.drop 2) ".".data && wsPlusDotPlus (s.drop 3)) ||
     wsPlusDotPlus (s.drop 2))) ||
  (startsWith s "featuring".data && wsPlusDotPlus (s.drop 9)) ||
  (startsWith s "with".data && wsPlusDotPlus (s.drop 4))

/-- Does `FEAT_INLINE_PATTERN` match at the head of `s`?  The keyword must sit
at the end of the leading whitespace run, since keywords start with a
non-whitespace character. -/
def featInlineAt (s : List Char) : Bool :=
  match s with
  | c :: _ => isWs c && inlineKwTail (s.dropWhile isWs)
  | [] => false

/-- `re.sub(FEAT_INLINE_PATTERN, '', s)`: drop everything from the leftmost
match (which always extends to the end of the string). -/
def subInline : List Char → List Char
  | [] => []
  | c :: rest => if featInlineAt (c :: rest) then [] else c :: subInline rest

/-- `result.replace(' & ', ' and ')` — left-to-right, non-overlapping,
scanning resumes after the replacement. -/
def replaceAmp : List Char → List Char
  | ' ' :: '&' :: ' ' :: rest => ' ' :: 'a' :: 'n' :: 'd' :: ' ' :: replaceAmp rest
  | c :: rest => c :: replaceAmp rest
  | [] => []

/-- `re.sub(THE_PREFIX, '', s)` with `THE_PREFIX = ^the\s+`: anchored, so it
fires at most once. -/
def theStrip (s : List Char) : List Char :=
  if startsWith s "the".data then
    match s.drop 3 with
    | c :: _ => if isWs c then (s.drop 3).dropWhile isWs else s
    | [] => s
  else s

/-- `TrackMatcherV2._normalize` on char lists: lowercase+strip, accent folding,
`FEAT_PATTERN`, `REMASTER_PATTERN`, `FEAT_INLINE_PATTERN`, `' & '→' and '`,
leading-`the` strip, whitespace collapse, final strip — in the source's
order. -/
def normalizeL (s : List Char) : List Char :=
  if s.isEmpty then []
  else
    let r := trimWs (s.map Char.toLower)
    let r := r.map latinBase
    let r := subFeat r
    let r := subRem r
    let r := subInline r
    let r := replaceAmp r
    let r := theStrip r
    trimWs (joinSp (splitWs r))

def normalize (s : String) : String := ⟨normalizeL s.data⟩

/-- `EXTRA_INFO_PATTERN = \s*[\(\[].*?[\)\]]`: bracket to the first closing
bracket (lazy `.*?`, which cannot cross a newline). -/
def extraMatchAt (s : List Char) : Option (List Char) :=
  match s.dropWhile isWs with
  | c :: rest =>
    if isOpenBr c then
      let mid := rest.takeWhile (fun x => !isCloseBr x && x ≠ '\n')
      match rest.drop mid.length with
      | c2 :: rest3 => if isCloseBr c2 then some rest3 else none
      | [] => none
    else none
  | [] => none

/-- Fuel-indexed `re.sub(EXTRA_INFO_PATTERN, '', s)` scanner. -/
def subExtraF : Nat → List Char → List Char
  | 0, _ => []
  | fuel + 1, s =>
    match extraMatchAt s with
    | some t => subExtraF fuel t
    | none =>
      match s with
      | [] => []
      | c :: rest => c :: subExtraF fuel rest

def subExtra (s : List Char) : List Char := subExtraF s.length s

/-- `SPECIAL_CHARS = [^\w\s]`, replaced by a space (per character; `\w` on the
ASCII fragment is alphanumeric or underscore). -/
def specialToSpace (c : Char) : Char :=
  if c.isAlphanum || c = '_' || isWs c then c else ' '

/-- `TrackMatcherV2._normalize_aggressive`. -/
def normalizeAggressiveL (s : List Char) : List Char :=
  if s.isEmpty then []
  else
    let r := normalizeL s
    let r := subExtra r
    let r := r.map specialToSpace
    trimWs (joinSp (splitWs r))

def normalizeAggressive (s : String) : String := ⟨normalizeAggressiveL s.data⟩

/-!
### `TrackMatcherV2._extract_featured_artists`

Split regexes (applied to the original, non-normalized string, with
`re.IGNORECASE`):
  main:  `^(.+?)\s+(?:feat\.?|ft\.?|featuring)\s+(.+)$`
  paren: `^(.+?)\s*[\(\[](?:feat\.?|ft\.?|featuring)\s+([^\)\]]+)[\)\]]`
and the featured-list splitter `\s*[,&]\s*|\s+and\s+`.
-/

/-- `KNOWN_DUOS` (verbatim, including the source's mojibake entry). -/
def knownDuos : List (List Char) :=
  ["simon & garfunkel".data, "simon and garfunkel".data,
   "hall & oates".data, "hall and oates".data,
   "crosby, stills & nash".data, "crosby, stills, nash & young".data,
   "earth, wind & fire".data, "earth wind & fire".data,
   "emerson, lake & palmer".data,
   "peter, paul & mary".data, "peter, paul and mary".data,
   "tears for fears".data,
   "the mamas & the papas".data, "mamas and papas".data,
   "florence + the machine".data, "florence and the machine".data,
   "belle & sebastian".data, "belle and sebastian".data,
   "tegan & sara".data, "tegan and sara".data,
   "penn & teller".data,
   "brooks & dunn".data,
   "blood, sweat & tears".data,
   "tony! toni! tonÃ©!".data,
   "three dog night".data]

/-- The tail `\s+(.+)$` on a single-line string, returning group 1: the greedy
`\s+` takes the whole whitespace run unless everything after it is empty, in
which case backtracking leaves the final whitespace character to `.+`. -/
def wsTailGroup (t : List Char) : Option (List Char) :=
  match t with
  | c :: _ :: _ =>
    if isWs c then
      let t2 := t.dropWhile isWs
      if t2.isEmpty then some [t.getLastD ' '] else some t2
    else none
  | _ => none

/-- One alternative `kw\.?` (dot only when `dotted`) followed by `\s+(.+)$`,
matching at `j`; returns group 2 of the main split regex. -/
def kwTailVariant (kw : List Char) (dotted : Bool) (j : List Char) :
    Option (List Char) :=
  if startsWithCI j kw then
    let r := j.drop kw.length
    if dotted then
      (if startsWith r ".".data then wsTailGroup (r.drop 1) else none) <|>
        wsTailGroup r
    else wsTailGroup r
  else none

/-- `(?:feat\.?|ft\.?|featuring)\s+(.+)$` at `j` (ordered alternation with
backtracking across the alternatives). -/
def kwThenWsTail (j : List Char) : Option (List Char) :=
  kwTailVariant "feat".data true j <|> kwTailVariant "ft".data true j <|>
    kwTailVariant "featuring".data false j

/-- `\s+(?:feat\.?|ft\.?|featuring)\s+(.+)$` matching at `rest` (the keyword
sits at the end of the leading whitespace run). -/
def featSepTail (rest : List Char) : Option (List Char) :=
  match rest with
  | c :: _ => if isWs c then kwThenWsTail (rest.dropWhile isWs) else none
  | [] => none

/-- Lazy-prefix scan for the main split regex: try the shortest non-empty
prefix first (`(.+?)` cannot cross a newline); returns (group 1, group 2). -/
def findFeatSplit (acc : List Char) : List Char → Option (List Char × List Char)
  | [] => none
  | c :: rest =>
    if c = '\n' then none
    else
      match featSepTail rest with
      | some g => some (acc ++ [c], g)
      | none => findFeatSplit (acc ++ [c]) rest

/-- `\s+([^\)\]]+)[\)\]]` — i.e. the part of the paren split regex after the
keyword — matching at `t`; returns group 2.  The greedy `\s+` takes the whole
whitespace run; if a closing bracket follows immediately, backtracking leaves
the last whitespace character to the `[^\)\]]+` group; if no closing bracket
exists at all the match fails. -/
def parenWsGroup (t : List Char) : Option (List Char) :=
  match t with
  | c :: _ =>
    if isWs c then
      let w := t.takeWhile isWs
      let rest' := t.drop w.length
      let g := rest'.takeWhile (fun x => !isCloseBr x)
      match rest'.drop g.length with
      | _ :: _ =>
        if g.isEmpty then
          if 2 ≤ w.length then some [w.getLastD ' '] else none
        else some g
      | [] => none
    else none
  | [] => none

/-- One alternative `kw\.?` followed by `\s+([^\)\]]+)[\)\]]`. -/
def parenKwVariant (kw : List Char) (dotted : Bool) (r : List Char) :
    Option (List Char) :=
  if startsWithCI r kw then
    let r2 := r.drop kw.length
    if dotted then
      (if startsWith r2 ".".data then parenWsGroup (r2.drop 1) else none) <|>
        parenWsGroup r2
    else parenWsGroup r2
  else none

/-- `\s*[\(\[](?:feat\.?|ft\.?|featuring)\s+([^\)\]]+)[\)\]]` at `rest`. -/
def parenSepTail (rest : List Char) : Option (List Char) :=
  match rest.dropWhile isWs with
  | c :: r =>
    if isOpenBr c then
      parenKwVariant "feat".data true r <|> parenKwVariant "ft".data true r <|>
        parenKwVariant "featuring".data false r
    else none
  | [] => none

/-- Lazy-prefix scan for the paren split regex. -/
def findParenSplit (acc : List Char) : List Char → Option (List Char × List Char)
  | [] => none
  | c :: rest =>
    if c = '\n' then none
    else
      match parenSepTail rest with
      | some g => some (acc ++ [c], g)
      | none => findParenSplit (acc ++ [c]) rest

/-- Length of a separator of `re.split(r'\s*[,&]\s*|\s+and\s+', ·, IGNORECASE)`
matching at the head of `s` (first alternative preferred, greedy whitespace). -/
def splitSepAt (s : List Char) : Option Nat :=
  let w := s.takeWhile isWs
  match s.drop w.length with
  | c :: rest =>
    if c = ',' || c = '&' then
      some (w.length + 1 + (rest.takeWhile isWs).length)
    else if 1 ≤ w.length && startsWithCI (c :: rest) "and".data then
      let w2 := ((c :: rest).drop 3).takeWhile isWs
      if 1 ≤ w2.length then some (w.length + 3 + w2.length) else none
    else none
  | [] => none

/-- Fuel-indexed `re.split` scanner collecting the pieces between separator
matches (`fuel = s.length` suffices: a separator consumes at least one
character). -/
def splitFeatF : Nat → List Char → List Char → List (List Char)
  | _, acc, [] => [acc]
  | 0, acc, s => [acc ++ s]
  | fuel + 1, acc, s =>
    match splitSepAt s with
    | some L => acc :: splitFeatF fuel [] (s.drop L)
    | none =>
      match s with
      | [] => [acc]
      | c :: rest => splitFeatF fuel (acc ++ [c]) rest

/-- `[a.strip() for a in re.split(..., others) if a.strip()]`. -/
def splitFeatured (others : List Char) : List (List Char) :=
  ((splitFeatF others.length [] others).map trimWs).filter (fun a => !a.isEmpty)

/-- `TrackMatcherV2._extract_featured_artists`. -/
def extractFeaturedArtists (s : String) : String × List String :=
  if s.data.isEmpty then (s, [])
  else
    let sl := trimWs (s.data.map Char.toLower)
    if knownDuos.any (fun duo => strContains sl duo || strContains duo sl) then
      (s, [])
    else
      match findFeatSplit [] s.data with
      | some (pre, g2) =>
        (⟨trimWs pre⟩, (splitFeatured g2).map (⟨·⟩))
      | none =>
        match findParenSplit [] s.data with
        | some (pre, g2) => (⟨trimWs pre⟩, (splitFeatured g2).map (⟨·⟩))
        | none => (s, [])

/-!
### Similarity scorer (model of the rapidfuzz `fuzz` module)

`fuzz.ratio` is the normalized InDel similarity `200*LCS(a,b)/(|a|+|b|)`
(`100` for two empty strings).  The LCS is computed by the standard
row-by-row dynamic programme so that concrete evaluations reduce quickly.
-/

/-- One LCS-row step: given the previous row (aligned so that its head is the
diagonal entry) and the entry to the left, produce the rest of the next row. -/
def lcsNextAux (a : Char) : Nat → List Char → List Nat → List Nat
  | left, b :: bs, d :: rest =>
    let p := rest.headD 0
    let cur := if a = b then d + 1 else max p left
    cur :: lcsNextAux a cur bs rest
  | _, _, _ => []

/-- Next full LCS row for character `a` of the first string. -/
def lcsRow (bs : List Char) (row : List Nat) (a : Char) : List Nat :=
  0 :: lcsNextAux a 0 bs row

/-- Length of a longest common subsequence. -/
def lcs (as' bs : List Char) : Nat :=
  (as'.foldl (lcsRow bs) (List.replicate (bs.length + 1) 0)).getLastD 0

/-- `fuzz.ratio` as an exact rational in `[0,100]`. -/
def indelSim (a b : List Char) : ℚ :=
  if a.length + b.length = 0 then 100
  else (200 * lcs a b : ℚ) / (a.length + b.length)

/-- Lexicographic (code-point) order used by Python's `sorted` on strings. -/
def lexLe : List Char → List Char → Bool
  | [], _ => true
  | _ :: _, [] => false
  | x :: xs, y :: ys => if x = y then lexLe xs ys else decide (x < y)

def insertTok (x : List Char) : List (List Char) → List (List Char)
  | [] => [x]
  | y :: ys => if lexLe x y then x :: y :: ys else y :: insertTok x ys

def sortToks : List (List Char) → List (List Char)
  | [] => []
  | x :: xs => insertTok x (sortToks xs)

/-- `fuzz.token_sort_ratio`: sort the whitespace-separated words of each side
and compare the rejoined strings. -/
def tokenSortSim (s1 s2 : List Char) : ℚ :=
  indelSim (joinSp (sortToks (splitWs s1))) (joinSp (sortToks (splitWs s2)))

/-- Keep the first occurrence of each word (Python `set`, then `sorted`). -/
def dedupToksAux (seen : List (List Char)) : List (List Char) → List (List Char)
  | [] => []
  | x :: xs =>
    if seen.contains x then dedupToksAux seen xs
    else x :: dedupToksAux (seen ++ [x]) xs

def dedupToks (ts : List (List Char)) : List (List Char) := dedupToksAux [] ts

/-- `fuzz.token_set_ratio`: compare sorted-intersection / sorted-difference
recombinations; `0` when either word set is empty, `100` when one set is
contained in the other. -/
def tokenSetSim (s1 s2 : List Char) : ℚ :=
  let ta := dedupToks (splitWs s1)
  let tb := dedupToks (splitWs s2)
  if ta.isEmpty || tb.isEmpty then 0
  else
    let sect := sortToks (ta.filter (fun t => tb.contains t))
    let dab := sortToks (ta.filter (fun t => !tb.contains t))
    let dba := sortToks (tb.filter (fun t => !ta.contains t))
    if dab.isEmpty || dba.isEmpty then 100
    else
      let j0 := joinSp sect
      let j1 := joinSp (sect ++ dab)
      let j2 := joinSp (sect ++ dba)
      max (max (indelSim j0 j1) (indelSim j0 j2)) (indelSim j1 j2)

/-- All length-`n` contiguous windows of `l`. -/
def windows (n : Nat) : List Char → List (List Char)
  | [] => if n = 0 then [[]] else []
  | c :: t => (if n ≤ (c :: t).length then [(c :: t).take n] else []) ++ windows n t

/-- `fuzz.partial_ratio`: best `fuzz.ratio` over the alignments of the shorter
string inside the longer one. -/
def alignSim (s1 s2 : List Char) : ℚ :=
  let a := if s1.length ≤ s2.length then s1 else s2
  let b := if s1.length ≤ s2.length then s2 else s1
  if a.isEmpty then (if b.isEmpty then 100 else 0)
  else ((windows a.length b).map (fun w => indelSim a w)).foldl max 0

/-- Python `max` over a non-empty list (`0` for `[]`, never hit by the code). -/
def qmaxList : List ℚ → ℚ
  | [] => 0
  | x :: xs => xs.foldl max x

/-- `TrackMatcherV2._fuzzy_score`: best of the four fuzz algorithms (the
optional jellyfish phonetic scores are modelled as absent,
`HAS_JELLYFISH = False`). -/
def fuzzyScore (s1 s2 : List Char) : ℚ :=
  qmaxList [indelSim s1 s2, tokenSortSim s1 s2, tokenSetSim s1 s2, alignSim s1 s2]

/-!
### Data model

A Spotify track dict carries `title`, `artist`, `duration` (ms) and the
optional `album` (`.get('album','')` is modelled by the empty string) and
`isrc` keys.  A Qobuz candidate dict — built both by `_search_candidates` and
by `search_by_isrc` — carries `id`, `title`, `artist` (performer name),
`album` and `duration` (seconds from the API, converted to ms).
-/

structure SpotifyTrack where
  title : String
  artist : String
  album : String
  duration : Int
  isrc : Option String
deriving DecidableEq

structure Candidate where
  id : Int
  title : String
  artist : String
  album : String
  duration : Int
deriving DecidableEq

/-- `matcher_v2.MatchResult`. -/
structure MatchResult where
  qobuz_track : Candidate
  match_type : String
  score : ℚ
deriving DecidableEq

/-- One entry of the `scored_candidates` list of
`match_track_with_suggestions`. -/
structure ScoredCandidate where
  candidate : Candidate
  score : ℚ
  titleScore : ℚ
  artistScore : ℚ
  durationDiff : Int
deriving DecidableEq

/-- One suggestion dict produced by `match_track_with_suggestions`. -/
structure Suggestion where
  qobuz_id : Int
  title : String
  artist : String
  album : String
  score : ℚ
  title_score : ℚ
  artist_score : ℚ
  duration_diff_sec : ℚ
deriving DecidableEq

/-!
### `TrackMatcherV2._score_candidate_detailed`
-/

/-- `_is_compilation_album`. -/
def compilationKeywords : List (List Char) :=
  ["greatest hits".data, "best of".data, "collection".data, "anthology".data,
   "essential".data, "ultimate".data, "complete".data, "definitive".data,
   "gold".data, "platinum".data, "legend".data, "classics".data,
   "hits".data, "singles".data, "compilation".data, "various artists".data,
   "soundtrack".data, "ost".data, "now that\x27s what i call".data]

def isCompilationAlbum (album : List Char) : Bool :=
  compilationKeywords.any (fun kw => strContains (album.map Char.toLower) kw)

def titleScoreOf (t : SpotifyTrack) (c : Candidate) : ℚ :=
  fuzzyScore (normalizeL t.title.data) (normalizeL c.title.data)

/-- The nested cross-product loop of `_score_candidate_detailed`: for every
(source-artist, candidate-artist) pair, keep the fuzzy score when above 80. -/
def crossScores (sArtists cArtists : List String) : List ℚ :=
  sArtists.foldr (fun sA acc =>
    (cArtists.filterMap (fun cA =>
      let cross := fuzzyScore (normalizeL sA.data) (normalizeL cA.data)
      if 80 < cross then some cross else none)) ++ acc) []

/-- The `artist_scores` list: direct score, primary-artist score, the
cross-product scores above 80 when featured artists are present, and the
artist-in-title partial score when above 70 — in the source's order. -/
def artistScores (t : SpotifyTrack) (c : Candidate) : List ℚ :=
  let sa := normalizeL t.artist.data
  let ca := normalizeL c.artist.data
  let ct := normalizeL c.title.data
  let sp := extractFeaturedArtists t.artist
  let cp := extractFeaturedArtists c.artist
  let base := [fuzzyScore sa ca,
               fuzzyScore (normalizeL sp.1.data) (normalizeL cp.1.data)]
  let withCross :=
    if !sp.2.isEmpty || !cp.2.isEmpty then
      base ++ crossScores (sp.1 :: sp.2) (cp.1 :: cp.2)
    else base
  let ait := alignSim sa ct
  if 70 < ait then withCross ++ [ait] else withCross

def artistScoreOf (t : SpotifyTrack) (c : Candidate) : ℚ :=
  qmaxList (artistScores t c)

/-- The album bonus/penalty applied to the combined score. -/
def albumAdjust (t : SpotifyTrack) (c : Candidate) (combined : ℚ) : ℚ :=
  let sAlb := normalizeL t.album.data
  let cAlb := normalizeL c.album.data
  if !sAlb.isEmpty && !cAlb.isEmpty then
    let albumScore := tokenSortSim sAlb cAlb
    if 85 < albumScore then min 100 (combined + 8)
    else if 70 < albumScore then min 100 (combined + 4)
    else if isCompilationAlbum cAlb then
      if !isCompilationAlbum sAlb then max 0 (combined - 5) else combined
    else combined
  else combined

/-- `(title_score, artist_score, combined)` with the 50/50 weighting and the
album adjustment. -/
def scoreCandidateDetailed (t : SpotifyTrack) (c : Candidate) : ℚ × ℚ × ℚ :=
  (titleScoreOf t c, artistScoreOf t c,
   albumAdjust t c (titleScoreOf t c * (1/2) + artistScoreOf t c * (1/2)))

/-- `_score_candidate`: combined score only. -/
def scoreCandidate (t : SpotifyTrack) (c : Candidate) : ℚ :=
  (scoreCandidateDetailed t c).2.2

/-- `_get_duration_tolerance`. -/
def getDurationTolerance (durationMs : Int) : Int :=
  if durationMs < 120000 then 3000
  else if durationMs < 240000 then 5000
  else if durationMs < 480000 then 10000
  else 30000

def MIN_COMBINED_SCORE : ℚ := 78

def MIN_ARTIST_SCORE_FOR_SUGGESTION : ℚ := 50

/-!
### Qobuz client slice

`_make_request` is an oracle returning either a parsed response or a
transport/API failure; the client methods catch every exception, which the
embedding mirrors by matching on the `Except`.
-/

structure RawItem where
  id : Int
  title : String
  performer : String
  albumTitle : String
  durationSec : Int
  isrc : Option String
deriving DecidableEq

structure SearchData where
  total : Nat
  items : List RawItem
deriving DecidableEq

structure QobuzApi where
  trackSearch : String → Nat → Except String SearchData

/-- The candidate dict built from a raw search item (`duration` seconds →
milliseconds). -/
def rawToCandidate (r : RawItem) : Candidate :=
  { id := r.id, title := r.title, artist := r.performer,
    album := r.albumTitle, duration := r.durationSec * 1000 }

def pyUpper (s : String) : String := ⟨s.data.map Char.toUpper⟩

/-- First item whose ISRC is truthy and equals the wanted ISRC
case-insensitively (`track_isrc.upper() == isrc.upper()`). -/
def findIsrcMatch (isrc : String) (items : List RawItem) : Option RawItem :=
  items.find? (fun it =>
    it.isrc.getD "" != "" && pyUpper (it.isrc.getD "") == pyUpper isrc)

/-- `QobuzClient.search_by_isrc`: direct ISRC query (limit 25) scanned for an
exact case-insensitive match, then — when both hints are truthy — a
title+artist query (limit 15) scanned the same way; `None` when nothing
matches or any request fails (the `try` wraps both strategies, so a failure
of either request yields `None`).  The source's `if items:` guard before the
scan is redundant and folded into the scan. -/
def searchByIsrc (api : QobuzApi) (isrc titleHint artistHint : String) :
    Option Candidate :=
  match api.trackSearch isrc 25 with
  | .error _ => none
  | .ok d =>
    match findIsrcMatch isrc d.items with
    | some it => some (rawToCandidate it)
    | none =>
      if titleHint != "" && artistHint != "" then
        match api.trackSearch (titleHint ++ " " ++ artistHint) 15 with
        | .error _ => none
        | .ok d2 => (findIsrcMatch isrc d2.items).map rawToCandidate
      else none

/-- The query `f"{title} {artist}".strip()` of `_search_candidates`. -/
def mkQuery (title artist : String) : String :=
  ⟨trimWs (title ++ " " ++ artist).data⟩

/-- `TrackMatcherV2._search_candidates`: empty query → no request; a request
failure or a zero-total response → `[]`; otherwise the mapped items. -/
def searchCandidates (api : QobuzApi) (title artist : String) : List Candidate :=
  let query := mkQuery title artist
  if query = "" then []
  else
    match api.trackSearch query 15 with
    | .error _ => []
    | .ok d => if d.total = 0 then [] else d.items.map rawToCandidate

/-!
### `TrackMatcherV2.match_track_with_suggestions`
-/

/-- `_match_by_isrc` (hints are the track's own title and artist). -/
def matchByIsrc (api : QobuzApi) (t : SpotifyTrack) : Option MatchResult :=
  (searchByIsrc api (t.isrc.getD "") t.title t.artist).map
    (fun q => { qobuz_track := q, match_type := "isrc", score := 100 })

/-- Python's banker's rounding (`round` to the nearest integer, ties to
even), on exact rationals. -/
def pyRound (x : ℚ) : ℤ :=
  if x - ⌊x⌋ < 1/2 then ⌊x⌋
  else if 1/2 < x - ⌊x⌋ then ⌊x⌋ + 1
  else if ⌊x⌋ % 2 = 0 then ⌊x⌋ else ⌊x⌋ + 1

/-- `round(x, 1)`. -/
def round1 (x : ℚ) : ℚ := (pyRound (x * 10) : ℚ) / 10

/-- The scored-candidate entry built for one candidate. -/
def mkScored (t : SpotifyTrack) (c : Candidate) : ScoredCandidate :=
  { candidate := c,
    score := (scoreCandidateDetailed t c).2.2,
    titleScore := (scoreCandidateDetailed t c).1,
    artistScore := (scoreCandidateDetailed t c).2.1,
    durationDiff := |t.duration - c.duration| }

def scoredCandidatesOf (t : SpotifyTrack) (cands : List Candidate) :
    List ScoredCandidate :=
  cands.map (mkScored t)

/-- Stable insertion: a new entry goes after every entry with a score at least
as large, matching the stable descending sort of
`scored_candidates.sort(key=..., reverse=True)`. -/
def insertByScore (x : ScoredCandidate) : List ScoredCandidate → List ScoredCandidate
  | [] => [x]
  | y :: ys => if y.score < x.score then x :: y :: ys else y :: insertByScore x ys

def sortByScoreDesc (l : List ScoredCandidate) : List ScoredCandidate :=
  l.foldl (fun acc x => insertByScore x acc) []

/-- The sorted scored-candidate pool of the primary fuzzy stage. -/
def sortedCandidatesOf (api : QobuzApi) (t : SpotifyTrack) : List ScoredCandidate :=
  sortByScoreDesc (scoredCandidatesOf t (searchCandidates api t.title t.artist))

/-- The suggestion dict built from a scored candidate (scores rounded to one
decimal, duration difference reported in seconds). -/
def mkSuggestion (sc : ScoredCandidate) : Suggestion :=
  { qobuz_id := sc.candidate.id, title := sc.candidate.title,
    artist := sc.candidate.artist, album := sc.candidate.album,
    score := round1 sc.score, title_score := round1 sc.titleScore,
    artist_score := round1 sc.artistScore,
    duration_diff_sec := round1 ((sc.durationDiff : ℚ) / 1000) }

/-- The suggestion loop: scan the first 10 sorted candidates, keep those
clearing both the suggestion threshold and the artist floor, stop at 5. -/
def buildSuggestions (thr : ℚ) (sorted : List ScoredCandidate) : List Suggestion :=
  ((((sorted.take 10).filter
      (fun sc => decide (thr ≤ sc.score ∧
        MIN_ARTIST_SCORE_FOR_SUGGESTION ≤ sc.artistScore))).take 5).map mkSuggestion)

/-- First candidate (in search order) clearing the fallback threshold 65 and
the duration tolerance — the scan shared by fallback strategies 1–3. -/
def scanStrategy (t : SpotifyTrack) (mtype : String) (tol : Int) :
    List Candidate → Option MatchResult
  | [] => none
  | c :: rest =>
    if 65 ≤ scoreCandidate t c ∧ |t.duration - c.duration| ≤ tol then
      some { qobuz_track := c, match_type := mtype, score := scoreCandidate t c }
    else scanStrategy t mtype tol rest

/-- Fallback strategy 4: title-only query, very high title score, minimal
artist plausibility, tight duration; score `0.7*title + 0.3*artist`. -/
def scanTitleFocused (t : SpotifyTrack) : List Candidate → Option MatchResult
  | [] => none
  | c :: rest =>
    let ts := fuzzyScore (normalizeL t.title.data) (normalizeL c.title.data)
    let sa := fuzzyScore (normalizeL t.artist.data) (normalizeL c.artist.data)
    if 92 ≤ ts ∧ 40 ≤ sa ∧ |t.duration - c.duration| ≤ 3000 then
      some { qobuz_track := c, match_type := "fuzzy_title",
             score := ts * (7/10) + sa * (3/10) }
    else scanTitleFocused t rest

/-- `TrackMatcherV2._match_alternative`: the four fallback strategies in
order. -/
def matchAlternative (api : QobuzApi) (t : SpotifyTrack) : Option MatchResult :=
  let tol := getDurationTolerance t.duration
  let s1 :=
    if t.album ≠ "" then
      scanStrategy t "fuzzy_album" tol (searchCandidates api t.title t.album)
    else none
  match s1 with
  | some r => some r
  | none =>
    let cleanTitle := normalizeAggressive t.title
    let cleanArtist := normalizeAggressive t.artist
    let s2 :=
      if cleanTitle ≠ normalize t.title then
        scanStrategy t "fuzzy_clean" tol (searchCandidates api cleanTitle cleanArtist)
      else none
    match s2 with
    | some r => some r
    | none =>
      let pf := extractFeaturedArtists t.artist
      let s3 :=
        if pf.2 ≠ [] then
          scanStrategy t "fuzzy_primary" tol (searchCandidates api t.title pf.1)
        else none
      match s3 with
      | some r => some r
      | none => scanTitleFocused t (searchCandidates api t.title "")

/-- The ISRC stage: entered only when the track's `isrc` is truthy. -/
def isrcStage (api : QobuzApi) (t : SpotifyTrack) : Option MatchResult :=
  if t.isrc.getD "" ≠ "" then matchByIsrc api t else none

/-- The primary fuzzy stage: accept the head of the sorted pool iff its
combined score clears `MIN_COMBINED_SCORE` and its duration difference the
dynamic tolerance. -/
def primaryStage (api : QobuzApi) (t : SpotifyTrack) : Option MatchResult :=
  match sortedCandidatesOf api t with
  | best :: _ =>
    if MIN_COMBINED_SCORE ≤ best.score ∧
        best.durationDiff ≤ getDurationTolerance t.duration then
      some { qobuz_track := best.candidate, match_type := "fuzzy",
             score := best.score }
    else none
  | [] => none

/-- `TrackMatcherV2.match_track_with_suggestions` (the source's default
`suggestion_threshold` is `40.0`; every caller in the repository uses it). -/
def matchTrackWithSuggestions (api : QobuzApi) (t : SpotifyTrack) (thr : ℚ) :
    Option MatchResult × List Suggestion :=
  match isrcStage api t with
  | some r => (some r, [])
  | none =>
    match primaryStage api t with
    | some r => (some r, [])
    | none =>
      match matchAlternative api t with
      | some r => (some r, [])
      | none => (none, buildSuggestions thr (sortedCandidatesOf api t))

/-- `TrackMatcherV2.match_track`. -/
def matchTrack (api : QobuzApi) (t : SpotifyTrack) : Option MatchResult :=
  (matchTrackWithSuggestions api t 40).1

/-!
### `AsyncSyncService._sync_favorites_streaming`

The streamed saved tracks are a list of `(track, spotify_id)` pairs.  The
thread pool only parallelises the pure per-item matching, and the results of
a processing batch are consumed in stream order (`[f.result() for f in
futures]`), so the run is modelled as the sequential fold below.  The
progress callbacks and the `on_track_synced` callbacks are pure observation
hooks and are not modelled; the cancellation flag is modelled as never set
(a run without a cancel request).  `add_favorite_tracks_batch` posts all ids
it is given in a single API call, so the write-back log records one list of
ids per `flush_favorites` call that actually posts.
-/

inductive ProcStatus
  | skipped
  | alreadyInQobuz
  | matched
  | notMatched
deriving DecidableEq

/-- The tuple returned by the worker `process_track` (for
`already_in_qobuz` the source puts the mapped Qobuz id in the fourth slot;
it is never read, and is modelled as `none`). -/
structure ProcResult where
  status : ProcStatus
  spotifyId : String
  track : SpotifyTrack
  matchResult : Option MatchResult
  suggestions : List Suggestion
deriving DecidableEq

/-- `process_track`: skip if resumed, fast-path on a pre-fetched ISRC,
otherwise run the matcher. -/
def processTrack (api : QobuzApi) (alreadySynced : List String)
    (isrcMap : List (String × Int)) (item : SpotifyTrack × String) : ProcResult :=
  if alreadySynced.contains item.2 then
    { status := .skipped, spotifyId := item.2, track := item.1,
      matchResult := none, suggestions := [] }
  else
    let isrc := item.1.isrc.getD ""
    if isrc ≠ "" ∧ (isrcMap.lookup isrc).isSome then
      { status := .alreadyInQobuz, spotifyId := item.2, track := item.1,
        matchResult := none, suggestions := [] }
    else
      let ms := matchTrackWithSuggestions api item.1 40
      { status := if ms.1.isSome then .matched else .notMatched,
        spotifyId := item.2, track := item.1,
        matchResult := ms.1, suggestions := ms.2 }

structure MissingTrack where
  spotifyId : String
  title : String
  artist : String
  album : String
  suggestions : List Suggestion
deriving DecidableEq

/-- The counters and lists of the favorites report (timestamps and the error
list of the exception handlers are not modelled). -/
structure FavReport where
  tracksMatched : Nat
  tracksNotMatched : Nat
  tracksSkipped : Nat
  tracksAlreadyInQobuz : Nat
  isrcMatches : Nat
  fuzzyMatches : Nat
  missingTracks : List MissingTrack
  syncedTracks : List (String × String)
deriving DecidableEq

def emptyReport : FavReport :=
  { tracksMatched := 0, tracksNotMatched := 0, tracksSkipped := 0,
    tracksAlreadyInQobuz := 0, isrcMatches := 0, fuzzyMatches := 0,
    missingTracks := [], syncedTracks := [] }

/-- The mutable state threaded through the run: the report, the (pre-fetched
and growing) `existing_favorites` set, the `pending_favorites` batch, and the
log of id lists actually posted by `flush_favorites`. -/
structure SyncState where
  report : FavReport
  existingFavorites : List Int
  pendingFavorites : List (String × Int)
  flushedBatches : List (List Int)

/-- `_process_single_result`.  (The `synced_tracks` append happens whether or
not the id was queued, exactly as in the source; the two branches of the
`existing_favorites` test are written out.) -/
def processSingleResult (st : SyncState) (r : ProcResult) : SyncState :=
  match r.status with
  | .skipped =>
    { st with report := { st.report with
        tracksSkipped := st.report.tracksSkipped + 1 } }
  | .alreadyInQobuz =>
    { st with report := { st.report with
        tracksAlreadyInQobuz := st.report.tracksAlreadyInQobuz + 1,
        tracksMatched := st.report.tracksMatched + 1,
        isrcMatches := st.report.isrcMatches + 1 } }
  | .matched =>
    match r.matchResult with
    | some mr =>
      let rep := { st.report with tracksMatched := st.report.tracksMatched + 1 }
      let rep :=
        if mr.match_type = "isrc" then
          { rep with isrcMatches := rep.isrcMatches + 1 }
        else
          { rep with fuzzyMatches := rep.fuzzyMatches + 1 }
      let rep := { rep with
        syncedTracks := rep.syncedTracks ++ [(r.spotifyId, toString mr.qobuz_track.id)] }
      if mr.qobuz_track.id ∈ st.existingFavorites then
        { st with report := rep }
      else
        { report := rep,
          existingFavorites := st.existingFavorites ++ [mr.qobuz_track.id],
          pendingFavorites := st.pendingFavorites ++ [(r.spotifyId, mr.qobuz_track.id)],
          flushedBatches := st.flushedBatches }
    | none =>
      { st with report := { st.report with
          tracksNotMatched := st.report.tracksNotMatched + 1,
          missingTracks := st.report.missingTracks ++
            [{ spotifyId := r.spotifyId, title := r.track.title,
               artist := r.track.artist, album := r.track.album,
               suggestions := r.suggestions }] } }
  | .notMatched =>
    { st with report := { st.report with
        tracksNotMatched := st.report.tracksNotMatched + 1,
        missingTracks := st.report.missingTracks ++
          [{ spotifyId := r.spotifyId, title := r.track.title,
             artist := r.track.artist, album := r.track.album,
             suggestions := r.suggestions }] } }

/-- `flush_favorites`: when the pending batch is non-empty and the run is not
a dry run, post all pending ids in one `add_favorite_tracks_batch` call and
clear the batch; otherwise do nothing (in particular a dry run never posts
and never clears). -/
def flushFavorites (dryRun : Bool) (st : SyncState) : SyncState :=
  if st.pendingFavorites ≠ [] ∧ dryRun = false then
    { st with
      flushedBatches := st.flushedBatches ++ [st.pendingFavorites.map Prod.snd],
      pendingFavorites := [] }
  else st

/-- The streaming loop's batching: accumulate tracks and emit a processing
batch whenever it reaches `n` (`BATCH_SIZE = 50`); a non-empty remainder
becomes a final short batch. -/
def chunkAux (n : Nat) : List α → List α → List (List α)
  | [], acc => if acc.isEmpty then [] else [acc]
  | x :: xs, acc =>
    let acc2 := acc ++ [x]
    if n ≤ acc2.length then acc2 :: chunkAux n xs [] else chunkAux n xs acc2

def chunkList (n : Nat) (l : List α) : List (List α) := chunkAux n l []

/-- Handle one processing batch: fold the results into the state, then — only
for a full batch, i.e. inside the streaming loop — flush when the pending
batch has reached `FAVORITE_BATCH = 25`. -/
def stepChunk (dryRun : Bool) (st : SyncState) (chunk : List ProcResult) :
    SyncState :=
  let st' := chunk.foldl processSingleResult st
  if chunk.length = 50 ∧ 25 ≤ st'.pendingFavorites.length then
    flushFavorites dryRun st'
  else st'

/-- `_sync_favorites_streaming` (modulo timestamps/callbacks): pre-fetched
`existing_favorites = set(qobuz_isrc_map.values())`, `BATCH_SIZE = 50`
processing batches with threshold flushes, then the final flush.  Returns the
report and the write-back log. -/
def runFavoritesSync (api : QobuzApi) (dryRun : Bool)
    (alreadySynced : List String) (isrcMap : List (String × Int))
    (stream : List (SpotifyTrack × String)) : FavReport × List (List Int) :=
  let results := stream.map (processTrack api alreadySynced isrcMap)
  let st0 : SyncState :=
    { report := emptyReport, existingFavorites := isrcMap.map Prod.snd,
      pendingFavorites := [], flushedBatches := [] }
  let st1 := (chunkList 50 results).foldl (stepChunk dryRun) st0
  let st2 := flushFavorites dryRun st1
  (st2.report, st2.flushedBatches)

/-!
### Concrete fixtures

Small oracles and tracks used to evaluate the pipeline at concrete inputs.
-/

/-- An oracle that always fails (every request raises at the transport). -/
def apiFail (err : String → Nat → String) : QobuzApi :=
  ⟨fun q l => .error (err q l)⟩

/-- An oracle that always answers with an empty result set. -/
def apiEmpty : QobuzApi := ⟨fun _ _ => .ok { total := 0, items := [] }⟩

/-- Scenario "exact ISRC present": the key-query returns one candidate whose
ISRC matches the source's case-insensitively but whose title/artist are
totally different. -/
def exactKeyItem : RawItem :=
  { id := 42, title := "Totally Different Name", performer := "Nobody",
    albumTitle := "Elsewhere", durationSec := 500,
    isrc := some "USRC17607839" }

def exactKeyApi : QobuzApi :=
  ⟨fun q _ =>
    if q = "usrc17607839" then .ok { total := 1, items := [exactKeyItem] }
    else .ok { total := 0, items := [] }⟩

def exactKeyTrack : SpotifyTrack :=
  { title := "Song A", artist := "X", album := "", duration := 100000,
    isrc := some "usrc17607839" }

/-- Two candidates identical in every text field (hence with equal combined
scores) that differ only in duration; the larger-delta one comes first in the
search results. -/
def tieFarItem : RawItem :=
  { id := 1, title := "abc", performer := "xyz", albumTitle := "",
    durationSec := 204, isrc := none }

def tieNearItem : RawItem :=
  { id := 2, title := "abc", performer := "xyz", albumTitle := "",
    durationSec := 201, isrc := none }

def tieApi : QobuzApi :=
  ⟨fun q _ =>
    if q = "abc xyz" then .ok { total := 2, items := [tieFarItem, tieNearItem] }
    else .ok { total := 0, items := [] }⟩

def tieTrack : SpotifyTrack :=
  { title := "abc", artist := "xyz", album := "", duration := 200000,
    isrc := none }

def tieFarCand : Candidate := rawToCandidate tieFarItem

def tieNearCand : Candidate := rawToCandidate tieNearItem

/-- A perfect text match whose duration is off by 100 s: rejected by every
stage, so it surfaces only as a suggestion. -/
def farItem : RawItem :=
  { id := 7, title := "hello", performer := "world", albumTitle := "",
    durationSec := 300, isrc := none }

def farApi : QobuzApi :=
  ⟨fun q _ =>
    if q = "hello world" then .ok { total := 1, items := [farItem] }
    else .ok { total := 0, items := [] }⟩

def farTrack : SpotifyTrack :=
  { title := "hello", artist := "world", album := "", duration := 200000,
    isrc := none }

/-- Scenario "no ISRC, good fuzzy match" from the specification. -/
def yesterdayItem : RawItem :=
  { id := 9, title := "Yesterday - Remastered 2009", performer := "Beatles",
    albumTitle := "", durationSec := 126, isrc := none }

def yesterdayApi : QobuzApi :=
  ⟨fun q _ =>
    if q = "Yesterday The Beatles" then .ok { total := 1, items := [yesterdayItem] }
    else .ok { total := 0, items := [] }⟩

def yesterdayTrack : SpotifyTrack :=
  { title := "Yesterday", artist := "The Beatles", album := "",
    duration := 125000, isrc := none }

def yesterdayCand : Candidate := rawToCandidate yesterdayItem

/-- An oracle that answers every query with a single item whose ISRC echoes
the query and whose id is the query's length — so the sixty distinct ISRCs of
`stream60` all match, with sixty distinct Qobuz ids. -/
def echoApi : QobuzApi :=
  ⟨fun q _ =>
    .ok { total := 1,
          items := [{ id := (q.length : Int), title := "T", performer := "A",
                      albumTitle := "", durationSec := 200, isrc := some q }] }⟩

/-- Sixty saved tracks with pairwise distinct ISRCs (`"K"`, `"Ka"`,
`"Kaa"`, …), all of which `echoApi` confirms. -/
def stream60 : List (SpotifyTrack × String) :=
  (List.range 60).map (fun i =>
    ({ title := "T", artist := "A", album := "", duration := 200000,
       isrc := some ⟨'K' :: List.replicate i 'a'⟩ },
     (⟨'S' :: List.replicate i 'a'⟩ : String)))

/-!
### Auxiliary predicates used by the proofs
-/

/-- Entries of an LCS row are bounded by their position: `RowBnd k l` says the
`j`-th entry of `l` is at most `k + j`. -/
def RowBnd : Nat → List Nat → Prop
  | _, [] => True
  | k, x :: xs => x ≤ k ∧ RowBnd (k + 1) xs

/-- The multiset of Qobuz ids a run has committed to write back: everything
already posted plus the pending batch. -/
def queuedIds (st : SyncState) : List Int :=
  st.flushedBatches.flatten ++ st.pendingFavorites.map Prod.snd

/-- Invariant of the favorites run (`init` is the pre-fetched
`existing_favorites` set): the committed ids are pairwise distinct, none of
them was pre-existing, and `existing_favorites` contains both the initial ids
and every committed id. -/
def SyncInv (init : List Int) (st : SyncState) : Prop :=
  (queuedIds st).Nodup ∧
  (∀ i ∈ queuedIds st, i ∉ init) ∧
  (∀ i ∈ init, i ∈ st.existingFavorites) ∧
  (∀ i ∈ queuedIds st, i ∈ st.existingFavorites)

/-- Relation between the states of a dry run and of a real run over the same
inputs: same report, same `existing_favorites`, and the dry run has posted
nothing. -/
def DryRel (d r : SyncState) : Prop :=
  d.report = r.report ∧ d.existingFavorites = r.existingFavorites ∧
  d.flushedBatches = []

/-!
## Proofs

### Bounds of the similarity scorer
-/

theorem le_foldlMaxQ : ∀ (l : List ℚ) (a : ℚ), a ≤ l.foldl max a := by
  intro l
  induction l with
  | nil => intro a; simp
  | cons x xs ih =>
    intro a
    exact le_trans (le_max_left a x) (ih (max a x))

theorem foldlMaxQ_le : ∀ (l : List ℚ) (a c : ℚ), a ≤ c → (∀ x ∈ l, x ≤ c) →
    l.foldl max a ≤ c := by
  intro l
  induction l with
  | nil => intro a c ha _; simpa using ha
  | cons x xs ih =>
    intro a c ha h
    simp only [List.foldl_cons]
    exact ih (max a x) c (max_le ha (h x (by simp))) (fun y hy => h y (by simp [hy]))

theorem qmaxList_nonneg {l : List ℚ} (h : ∀ x ∈ l, 0 ≤ x) : 0 ≤ qmaxList l := by
  cases l with
  | nil => simp [qmaxList]
  | cons x xs =>
    exact le_trans (h x (by simp)) (le_foldlMaxQ xs x)

theorem qmaxList_le {l : List ℚ} {c : ℚ} (hc : 0 ≤ c) (h : ∀ x ∈ l, x ≤ c) :
    qmaxList l ≤ c := by
  cases l with
  | nil => simpa [qmaxList] using hc
  | cons x xs =>
    exact foldlMaxQ_le xs x c (h x (by simp)) (fun y hy => h y (by simp [hy]))

theorem getLastD_le {l : List Nat} {n : Nat} :
    ∀ {d : Nat}, d ≤ n → (∀ x ∈ l, x ≤ n) → l.getLastD d ≤ n := by
  induction l with
  | nil => intro d hd _; simpa using hd
  | cons a l ih =>
    intro d _ h
    rw [List.getLastD_cons]
    exact ih (h a (by simp)) (fun x hx => h x (by simp [hx]))

theorem lcsNextAux_length (a : Char) :
    ∀ (bs : List Char) (left : Nat) (prev : List Nat),
      bs.length ≤ prev.length → (lcsNextAux a left bs prev).length = bs.length := by
  intro bs
  induction bs with
  | nil => intro left prev _; cases prev <;> simp [lcsNextAux]
  | cons b bs ih =>
    intro left prev h
    cases prev with
    | nil => simp at h
    | cons d rest =>
      simp only [lcsNextAux, List.length_cons]
      rw [ih _ rest (by simpa using h)]

theorem lcsNextAux_le (a : Char) :
    ∀ (bs : List Char) (i left : Nat) (prev : List Nat),
      (∀ x ∈ prev, x ≤ i) → left ≤ i + 1 →
      ∀ x ∈ lcsNextAux a left bs prev, x ≤ i + 1 := by
  intro bs
  induction bs with
  | nil => intro i left prev _ _ x hx; cases prev <;> simp [lcsNextAux] at hx
  | cons b bs ih =>
    intro i left prev h hl x hx
    cases prev with
    | nil => simp [lcsNextAux] at hx
    | cons d rest =>
      simp only [lcsNextAux, List.mem_cons] at hx
      have hcur : (if a = b then d + 1 else max (rest.headD 0) left) ≤ i + 1 := by
        split
        · exact Nat.succ_le_succ (h d (by simp))
        · refine Nat.max_le.mpr ⟨?_, hl⟩
          cases rest with
          | nil => simp
          | cons p ps => exact le_trans (h p (by simp)) (Nat.le_succ i)
      rcases hx with hx | hx
      · exact hx ▸ hcur
      · exact ih i _ rest (fun y hy => h y (by simp [hy])) hcur x hx

theorem lcsFoldl_le (bs : List Char) :
    ∀ (as' : List Char) (i : Nat) (row : List Nat),
      (∀ x ∈ row, x ≤ i) →
      ∀ x ∈ as'.foldl (lcsRow bs) row, x ≤ i + as'.length := by
  intro as'
  induction as' with
  | nil => intro i row h x hx; simpa using h x hx
  | cons a as' ih =>
    intro i row h x hx
    simp only [List.foldl_cons] at hx
    have hrow : ∀ y ∈ lcsRow bs row a, y ≤ i + 1 := by
      intro y hy
      simp only [lcsRow, List.mem_cons] at hy
      rcases hy with hy | hy
      · omega
      · exact lcsNextAux_le a bs i 0 row h (Nat.zero_le _) y hy
    have := ih (i + 1) (lcsRow bs row a) hrow x hx
    simp only [List.length_cons]
    omega

theorem lcs_le_left (as' bs : List Char) : lcs as' bs ≤ as'.length := by
  unfold lcs
  refine getLastD_le (Nat.zero_le _) ?_
  intro x hx
  have h0 : ∀ y ∈ List.replicate (bs.length + 1) 0, y ≤ 0 := by
    intro y hy
    simp [List.eq_of_mem_replicate hy]
  simpa using lcsFoldl_le bs as' 0 _ h0 x hx

theorem rowBnd_headD {k : Nat} {l : List Nat} (h : RowBnd k l) : l.headD 0 ≤ k := by
  cases l with
  | nil => simp
  | cons x xs => exact h.1

theorem lcsNextAux_rowBnd (a : Char) :
    ∀ (bs : List Char) (k left : Nat) (prev : List Nat),
      RowBnd k prev → left ≤ k → RowBnd (k + 1) (lcsNextAux a left bs prev) := by
  intro bs
  induction bs with
  | nil => intro k left prev _ _; cases prev <;> simp [lcsNextAux, RowBnd]
  | cons b bs ih =>
    intro k left prev h hl
    cases prev with
    | nil => simp [lcsNextAux, RowBnd]
    | cons d rest =>
      simp only [lcsNextAux]
      refine ⟨?_, ?_⟩
      · split
        · exact Nat.succ_le_succ h.1
        · exact Nat.max_le.mpr ⟨le_trans (rowBnd_headD h.2) (le_refl _), le_trans hl (Nat.le_succ k)⟩
      · refine ih (k + 1) _ rest h.2 ?_
        split
        · exact Nat.succ_le_succ h.1
        · exact Nat.max_le.mpr ⟨rowBnd_headD h.2, le_trans hl (Nat.le_succ k)⟩

theorem replicate_rowBnd : ∀ (n k : Nat), RowBnd k (List.replicate n 0) := by
  intro n
  induction n with
  | zero => intro k; simp [RowBnd]
  | succ n ih => intro k; exact ⟨Nat.zero_le k, ih (k + 1)⟩

theorem lcsFoldl_rowBnd (bs : List Char) :
    ∀ (as' : List Char) (row : List Nat),
      RowBnd 0 row → RowBnd 0 (as'.foldl (lcsRow bs) row) := by
  intro as'
  induction as' with
  | nil => intro row h; simpa using h
  | cons a as' ih =>
    intro row h
    simp only [List.foldl_cons]
    refine ih _ ⟨Nat.le_refl 0, ?_⟩
    exact lcsNextAux_rowBnd a bs 0 0 row h (Nat.le_refl 0)

theorem rowBnd_getLastD :
    ∀ (l : List Nat) (k x : Nat), RowBnd k (x :: l) → (x :: l).getLastD 0 ≤ k + l.length := by
  intro l
  induction l with
  | nil => intro k x h; simpa using h.1
  | cons y ys ih =>
    intro k x h
    rw [List.getLastD_cons]
    have := ih (k + 1) y h.2
    rw [List.getLastD_cons] at this ⊢
    simpa [Nat.add_comm, Nat.add_assoc, Nat.add_left_comm] using this

theorem lcsFoldl_length (bs : List Char) :
    ∀ (as' : List Char) (row : List Nat), row.length = bs.length + 1 →
      (as'.foldl (lcsRow bs) row).length = bs.length + 1 := by
  intro as'
  induction as' with
  | nil => intro row h; simpa using h
  | cons a as' ih =>
    intro row h
    simp only [List.foldl_cons]
    refine ih _ ?_
    simp only [lcsRow, List.length_cons]
    rw [lcsNextAux_length a bs 0 row (by omega)]

theorem lcs_le_right (as' bs : List Char) : lcs as' bs ≤ bs.length := by
  unfold lcs
  have hlen := lcsFoldl_length bs as' (List.replicate (bs.length + 1) 0) (by simp)
  have hbnd := lcsFoldl_rowBnd bs as' (List.replicate (bs.length + 1) 0)
    (replicate_rowBnd _ 0)
  cases hrow : as'.foldl (lcsRow bs) (List.replicate (bs.length + 1) 0) with
  | nil => rw [hrow] at hlen; simp at hlen
  | cons x l =>
    rw [hrow] at hlen hbnd
    have := rowBnd_getLastD l 0 x hbnd
    simp only [List.length_cons] at hlen
    omega

theorem indelSim_nonneg (a b : List Char) : 0 ≤ indelSim a b := by
  unfold indelSim
  split
  · norm_num
  · positivity

theorem indelSim_le (a b : List Char) : indelSim a b ≤ 100 := by
  unfold indelSim
  split
  · norm_num
  · rename_i h
    have hpos : (0 : ℚ) < (a.length : ℚ) + (b.length : ℚ) := by
      have : 0 < a.length + b.length := Nat.pos_of_ne_zero h
      push_cast at *
      exact_mod_cast this
    rw [div_le_iff₀ hpos]
    have h1 : ((lcs a b : ℚ)) ≤ (a.length : ℚ) := by exact_mod_cast lcs_le_left a b
    have h2 : ((lcs a b : ℚ)) ≤ (b.length : ℚ) := by exact_mod_cast lcs_le_right a b
    linarith

theorem tokenSortSim_nonneg (a b : List Char) : 0 ≤ tokenSortSim a b :=
  indelSim_nonneg _ _

theorem tokenSortSim_le (a b : List Char) : tokenSortSim a b ≤ 100 :=
  indelSim_le _ _

theorem tokenSetSim_nonneg (a b : List Char) : 0 ≤ tokenSetSim a b := by
  simp only [tokenSetSim]
  split
  · norm_num
  · split
    · norm_num
    · exact le_trans (indelSim_nonneg _ _) (le_trans (le_max_left _ _) (le_max_left _ _))

theorem tokenSetSim_le (a b : List Char) : tokenSetSim a b ≤ 100 := by
  simp only [tokenSetSim]
  split
  · norm_num
  · split
    · norm_num
    · exact max_le (max_le (indelSim_le _ _) (indelSim_le _ _)) (indelSim_le _ _)

theorem foldl_indelSim_le (x : List Char) (ws : List (List Char)) :
    (ws.map (fun w => indelSim x w)).foldl max 0 ≤ 100 := by
  refine foldlMaxQ_le _ 0 100 (by norm_num) ?_
  intro y hy
  rcases List.mem_map.mp hy with ⟨w, _, rfl⟩
  exact indelSim_le _ _

theorem alignSim_nonneg (a b : List Char) : 0 ≤ alignSim a b := by
  simp only [alignSim]
  split_ifs <;> first
    | exact le_foldlMaxQ _ 0
    | norm_num

theorem alignSim_le (a b : List Char) : alignSim a b ≤ 100 := by
  simp only [alignSim]
  split_ifs <;> first
    | exact foldl_indelSim_le _ _
    | norm_num

theorem fuzzyScore_nonneg (a b : List Char) : 0 ≤ fuzzyScore a b := by
  unfold fuzzyScore
  refine qmaxList_nonneg ?_
  intro x hx
  simp only [List.mem_cons, List.mem_singleton] at hx
  rcases hx with rfl | rfl | rfl | rfl | h
  · exact indelSim_nonneg _ _
  · exact tokenSortSim_nonneg _ _
  · exact tokenSetSim_nonneg _ _
  · exact alignSim_nonneg _ _
  · simp at h

theorem fuzzyScore_le (a b : List Char) : fuzzyScore a b ≤ 100 := by
  unfold fuzzyScore
  refine qmaxList_le (by norm_num) ?_
  intro x hx
  simp only [List.mem_cons, List.mem_singleton] at hx
  rcases hx with rfl | rfl | rfl | rfl | h
  · exact indelSim_le _ _
  · exact tokenSortSim_le _ _
  · exact tokenSetSim_le _ _
  · exact alignSim_le _ _
  · simp at h

/-!
### Bounds of `_score_candidate_detailed`
-/

theorem crossScores_bounds (ss cs : List String) :
    ∀ x ∈ crossScores ss cs, 0 ≤ x ∧ x ≤ 100 := by
  induction ss with
  | nil => intro x hx; simp [crossScores] at hx
  | cons s ss ih =>
    intro x hx
    simp only [crossScores, List.foldr_cons, List.mem_append] at hx
    rcases hx with hx | hx
    · rcases List.mem_filterMap.mp hx with ⟨cA, _, hsome⟩
      split at hsome
      · cases hsome
        exact ⟨fuzzyScore_nonneg _ _, fuzzyScore_le _ _⟩
      · cases hsome
    · exact ih x hx

theorem artistScores_bounds (t : SpotifyTrack) (c : Candidate) :
    ∀ x ∈ artistScores t c, 0 ≤ x ∧ x ≤ 100 := by
  intro x hx
  simp only [artistScores] at hx
  have hbase : ∀ y ∈ [fuzzyScore (normalizeL t.artist.data) (normalizeL c.artist.data),
      fuzzyScore (normalizeL (extractFeaturedArtists t.artist).1.data)
        (normalizeL (extractFeaturedArtists c.artist).1.data)], 0 ≤ y ∧ y ≤ 100 := by
    intro y hy
    simp only [List.mem_cons, List.mem_singleton] at hy
    rcases hy with rfl | rfl | h
    · exact ⟨fuzzyScore_nonneg _ _, fuzzyScore_le _ _⟩
    · exact ⟨fuzzyScore_nonneg _ _, fuzzyScore_le _ _⟩
    · simp at h
  have hcross := crossScores_bounds
    ((extractFeaturedArtists t.artist).1 :: (extractFeaturedArtists t.artist).2)
    ((extractFeaturedArtists c.artist).1 :: (extractFeaturedArtists c.artist).2)
  have halign : 0 ≤ alignSim (normalizeL t.artist.data) (normalizeL c.title.data) ∧
      alignSim (normalizeL t.artist.data) (normalizeL c.title.data) ≤ 100 :=
    ⟨alignSim_nonneg _ _, alignSim_le _ _⟩
  split at hx
  · simp only [List.mem_append, List.mem_singleton] at hx
    rcases hx with hx | rfl
    · split at hx
      · rcases List.mem_append.mp hx with hx | hx
        · exact hbase x hx
        · exact hcross x hx
      · exact hbase x hx
    · exact halign
  · split at hx
    · rcases List.mem_append.mp hx with hx | hx
      · exact hbase x hx
      · exact hcross x hx
    · exact hbase x hx

theorem artistScores_ne_nil (t : SpotifyTrack) (c : Candidate) :
    artistScores t c ≠ [] := by
  simp only [artistScores]
  split <;> split <;> simp

theorem qmaxList_mem_bounds {l : List ℚ}
    (h : ∀ x ∈ l, 0 ≤ x ∧ x ≤ 100) : 0 ≤ qmaxList l ∧ qmaxList l ≤ 100 :=
  ⟨qmaxList_nonneg (fun x hx => (h x hx).1),
   qmaxList_le (by norm_num) (fun x hx => (h x hx).2)⟩

theorem artistScoreOf_bounds (t : SpotifyTrack) (c : Candidate) :
    0 ≤ artistScoreOf t c ∧ artistScoreOf t c ≤ 100 := by
  unfold artistScoreOf
  exact qmaxList_mem_bounds (artistScores_bounds t c)

theorem titleScoreOf_bounds (t : SpotifyTrack) (c : Candidate) :
    0 ≤ titleScoreOf t c ∧ titleScoreOf t c ≤ 100 :=
  ⟨fuzzyScore_nonneg _ _, fuzzyScore_le _ _⟩

theorem albumAdjust_bounds (t : SpotifyTrack) (c : Candidate) {x : ℚ}
    (h0 : 0 ≤ x) (h1 : x ≤ 100) :
    0 ≤ albumAdjust t c x ∧ albumAdjust t c x ≤ 100 := by
  simp only [albumAdjust]
  split_ifs <;>
    refine ⟨?_, ?_⟩ <;>
    first
      | exact le_min (by norm_num) (by linarith)
      | exact min_le_left _ _
      | exact le_max_left _ _
      | exact max_le (by norm_num) (by linarith)
      | linarith

theorem scoreCandidate_bounds (t : SpotifyTrack) (c : Candidate) :
    0 ≤ scoreCandidate t c ∧ scoreCandidate t c ≤ 100 := by
  unfold scoreCandidate scoreCandidateDetailed
  have ht := titleScoreOf_bounds t c
  have ha := artistScoreOf_bounds t c
  exact albumAdjust_bounds t c (by linarith [ht.1, ha.1]) (by linarith [ht.2, ha.2])

/-!
### The stable descending sort and the suggestion list
-/

theorem mem_insertByScore {x y : ScoredCandidate} :
    ∀ {l : List ScoredCandidate}, x ∈ insertByScore y l ↔ x = y ∨ x ∈ l := by
  intro l
  induction l with
  | nil => simp [insertByScore]
  | cons z zs ih =>
    simp only [insertByScore]
    split
    · simp
    · simp only [List.mem_cons, ih]
      tauto

theorem pairwise_insertByScore {y : ScoredCandidate} :
    ∀ {l : List ScoredCandidate},
      l.Pairwise (fun a b => b.score ≤ a.score) →
      (insertByScore y l).Pairwise (fun a b => b.score ≤ a.score) := by
  intro l
  induction l with
  | nil => intro _; simp [insertByScore]
  | cons z zs ih =>
    intro h
    rw [List.pairwise_cons] at h
    simp only [insertByScore]
    split
    · rename_i hlt
      refine List.pairwise_cons.mpr ⟨?_, List.pairwise_cons.mpr h⟩
      intro w hw
      rcases List.mem_cons.mp hw with rfl | hw
      · exact le_of_lt hlt
      · exact le_trans (h.1 w hw) (le_of_lt hlt)
    · rename_i hge
      refine List.pairwise_cons.mpr ⟨?_, ih h.2⟩
      intro w hw
      rcases mem_insertByScore.mp hw with rfl | hw
      · exact le_of_not_lt hge
      · exact h.1 w hw

theorem pairwise_foldl_insert :
    ∀ (l : List ScoredCandidate) (acc : List ScoredCandidate),
      acc.Pairwise (fun a b => b.score ≤ a.score) →
      (l.foldl (fun acc x => insertByScore x acc) acc).Pairwise
        (fun a b => b.score ≤ a.score) := by
  intro l
  induction l with
  | nil => intro acc h; simpa using h
  | cons x xs ih =>
    intro acc h
    simp only [List.foldl_cons]
    exact ih _ (pairwise_insertByScore h)

theorem sortByScoreDesc_pairwise (l : List ScoredCandidate) :
    (sortByScoreDesc l).Pairwise (fun a b => b.score ≤ a.score) :=
  pairwise_foldl_insert l [] (by simp)

theorem mem_foldl_insert :
    ∀ (l : List ScoredCandidate) (acc : List ScoredCandidate) (x : ScoredCandidate),
      x ∈ l.foldl (fun acc x => insertByScore x acc) acc ↔ x ∈ l ∨ x ∈ acc := by
  intro l
  induction l with
  | nil => intro acc x; simp
  | cons y ys ih =>
    intro acc x
    simp only [List.foldl_cons, ih, mem_insertByScore, List.mem_cons]
    tauto

theorem mem_sortByScoreDesc {l : List ScoredCandidate} {x : ScoredCandidate} :
    x ∈ sortByScoreDesc l ↔ x ∈ l := by
  unfold sortByScoreDesc
  rw [mem_foldl_insert]
  simp

/-!
### Python rounding
-/

theorem pyRound_floor_le (x : ℚ) : ⌊x⌋ ≤ pyRound x := by
  unfold pyRound
  split_ifs <;> omega

theorem pyRound_le_floor_succ (x : ℚ) : pyRound x ≤ ⌊x⌋ + 1 := by
  unfold pyRound
  split_ifs <;> omega

theorem pyRound_mono {x y : ℚ} (h : x ≤ y) : pyRound x ≤ pyRound y := by
  rcases lt_or_eq_of_le (Int.floor_le_floor h : ⌊x⌋ ≤ ⌊y⌋) with hf | hf
  · calc pyRound x ≤ ⌊x⌋ + 1 := pyRound_le_floor_succ x
      _ ≤ ⌊y⌋ := by omega
      _ ≤ pyRound y := pyRound_floor_le y
  · have hr : x - ⌊x⌋ ≤ y - ⌊y⌋ := by
      rw [hf]
      linarith
    unfold pyRound
    rw [hf]
    split_ifs <;> first | omega | linarith

theorem round1_mono {x y : ℚ} (h : x ≤ y) : round1 x ≤ round1 y := by
  unfold round1
  have : pyRound (x * 10) ≤ pyRound (y * 10) := pyRound_mono (by linarith)
  have hc : ((pyRound (x * 10) : ℚ)) ≤ ((pyRound (y * 10) : ℚ)) := by exact_mod_cast this
  linarith

theorem round1_fifty : round1 50 = 50 := by
  unfold round1 pyRound
  norm_num

theorem round1_ge_fifty {x : ℚ} (h : 50 ≤ x) : 50 ≤ round1 x := by
  calc (50 : ℚ) = round1 50 := round1_fifty.symm
    _ ≤ round1 x := round1_mono h

/-!
### Inversion lemmas for the stages of the matching pipeline
-/

theorem matchByIsrc_shape {api : QobuzApi} {t : SpotifyTrack} {r : MatchResult}
    (h : matchByIsrc api t = some r) :
    ∃ q, searchByIsrc api (t.isrc.getD "") t.title t.artist = some q ∧
      r = { qobuz_track := q, match_type := "isrc", score := 100 } := by
  unfold matchByIsrc at h
  cases hq : searchByIsrc api (t.isrc.getD "") t.title t.artist with
  | none => rw [hq] at h; cases h
  | some q =>
    rw [hq] at h
    simp only [Option.map_some'] at h
    exact ⟨q, rfl, (Option.some.inj h).symm⟩

theorem isrcStage_shape {api : QobuzApi} {t : SpotifyTrack} {r : MatchResult}
    (h : isrcStage api t = some r) : r.match_type = "isrc" ∧ r.score = 100 := by
  unfold isrcStage at h
  split at h
  · rcases matchByIsrc_shape h with ⟨q, _, rfl⟩
    exact ⟨rfl, rfl⟩
  · cases h

theorem primaryStage_shape {api : QobuzApi} {t : SpotifyTrack} {r : MatchResult}
    (h : primaryStage api t = some r) :
    ∃ best rest, sortedCandidatesOf api t = best :: rest ∧
      r = { qobuz_track := best.candidate, match_type := "fuzzy",
            score := best.score } ∧
      MIN_COMBINED_SCORE ≤ best.score ∧
      best.durationDiff ≤ getDurationTolerance t.duration := by
  unfold primaryStage at h
  split at h
  · rename_i best rest hsort
    split at h
    · rename_i hcond
      exact ⟨best, rest, hsort, (Option.some.inj h).symm, hcond.1, hcond.2⟩
    · cases h
  · cases h

theorem scanStrategy_shape {t : SpotifyTrack} {mt : String} {tol : Int} :
    ∀ {l : List Candidate} {r : MatchResult}, scanStrategy t mt tol l = some r →
      ∃ c, c ∈ l ∧
        r = { qobuz_track := c, match_type := mt, score := scoreCandidate t c } := by
  intro l
  induction l with
  | nil => intro r h; cases h
  | cons c cs ih =>
    intro r h
    rw [scanStrategy] at h
    split at h
    · exact ⟨c, by simp, (Option.some.inj h).symm⟩
    · rcases ih h with ⟨c', hm, hr⟩
      exact ⟨c', by simp [hm], hr⟩

theorem scanTitleFocused_shape {t : SpotifyTrack} :
    ∀ {l : List Candidate} {r : MatchResult}, scanTitleFocused t l = some r →
      ∃ c, c ∈ l ∧ r.match_type = "fuzzy_title" ∧
        r.score = fuzzyScore (normalizeL t.title.data) (normalizeL c.title.data) * (7/10) +
          fuzzyScore (normalizeL t.artist.data) (normalizeL c.artist.data) * (3/10) := by
  intro l
  induction l with
  | nil => intro r h; cases h
  | cons c cs ih =>
    intro r h
    rw [scanTitleFocused] at h
    split at h
    · refine ⟨c, by simp, ?_, ?_⟩ <;> rw [← Option.some.inj h]
    · rcases ih h with ⟨c', hm, hr⟩
      exact ⟨c', by simp [hm], hr⟩

theorem matchAlternative_shape {api : QobuzApi} {t : SpotifyTrack} {r : MatchResult}
    (h : matchAlternative api t = some r) :
    (0 ≤ r.score ∧ r.score ≤ 100) ∧
    r.match_type ≠ "isrc" ∧ r.match_type ≠ "fuzzy" := by
  have hscan : ∀ {mt : String} {tol : Int} {l : List Candidate},
      scanStrategy t mt tol l = some r → (0 ≤ r.score ∧ r.score ≤ 100) ∧
        r.match_type = mt := by
    intro mt tol l hs
    rcases scanStrategy_shape hs with ⟨c, _, rfl⟩
    exact ⟨scoreCandidate_bounds t c, rfl⟩
  have hfoc : ∀ {l : List Candidate}, scanTitleFocused t l = some r →
      (0 ≤ r.score ∧ r.score ≤ 100) ∧ r.match_type = "fuzzy_title" := by
    intro l hs
    rcases scanTitleFocused_shape hs with ⟨c, _, hmt, hsc⟩
    have h1 := fuzzyScore_nonneg (normalizeL t.title.data) (normalizeL c.title.data)
    have h2 := fuzzyScore_le (normalizeL t.title.data) (normalizeL c.title.data)
    have h3 := fuzzyScore_nonneg (normalizeL t.artist.data) (normalizeL c.artist.data)
    have h4 := fuzzyScore_le (normalizeL t.artist.data) (normalizeL c.artist.data)
    exact ⟨⟨by rw [hsc]; linarith, by rw [hsc]; linarith⟩, hmt⟩
  simp only [matchAlternative] at h
  split at h
  · rename_i r1 heq
    cases Option.some.inj h
    split at heq
    · rcases hscan heq with ⟨hb, hmt⟩
      refine ⟨hb, ?_, ?_⟩ <;> rw [hmt] <;> decide
    · cases heq
  · split at h
    · rename_i r2 heq
      cases Option.some.inj h
      split at heq
      · rcases hscan heq with ⟨hb, hmt⟩
        refine ⟨hb, ?_, ?_⟩ <;> rw [hmt] <;> decide
      · cases heq
    · split at h
      · rename_i r3 heq
        cases Option.some.inj h
        split at heq
        · rcases hscan heq with ⟨hb, hmt⟩
          refine ⟨hb, ?_, ?_⟩ <;> rw [hmt] <;> decide
        · cases heq
      · rcases hfoc h with ⟨hb, hmt⟩
        refine ⟨hb, ?_, ?_⟩ <;> rw [hmt] <;> decide

theorem mkScored_score (t : SpotifyTrack) (c : Candidate) :
    (mkScored t c).score = scoreCandidate t c := rfl

theorem mkScored_durationDiff (t : SpotifyTrack) (c : Candidate) :
    (mkScored t c).durationDiff = |t.duration - c.duration| := rfl

theorem mem_sortedCandidatesOf {api : QobuzApi} {t : SpotifyTrack}
    {x : ScoredCandidate} (hx : x ∈ sortedCandidatesOf api t) :
    ∃ c, c ∈ searchCandidates api t.title t.artist ∧ x = mkScored t c := by
  unfold sortedCandidatesOf at hx
  rcases List.mem_map.mp (mem_sortByScoreDesc.mp hx) with ⟨c, hc, he⟩
  exact ⟨c, hc, he.symm⟩

/-!
### Invariants of the favorites-sync driver
-/

theorem syncInv_processSingleResult {init : List Int} {st : SyncState}
    (h : SyncInv init st) (r : ProcResult) :
    SyncInv init (processSingleResult st r) := by
  obtain ⟨h1, h2, h3, h4⟩ := h
  obtain ⟨status, sid, trk, mres, sugs⟩ := r
  cases status with
  | skipped => exact ⟨by simpa [queuedIds, processSingleResult] using h1,
      by simpa [queuedIds, processSingleResult] using h2,
      by simpa [processSingleResult] using h3,
      by simpa [queuedIds, processSingleResult] using h4⟩
  | alreadyInQobuz => exact ⟨by simpa [queuedIds, processSingleResult] using h1,
      by simpa [queuedIds, processSingleResult] using h2,
      by simpa [processSingleResult] using h3,
      by simpa [queuedIds, processSingleResult] using h4⟩
  | notMatched => exact ⟨by simpa [queuedIds, processSingleResult] using h1,
      by simpa [queuedIds, processSingleResult] using h2,
      by simpa [processSingleResult] using h3,
      by simpa [queuedIds, processSingleResult] using h4⟩
  | matched =>
    cases mres with
    | none => exact ⟨by simpa [queuedIds, processSingleResult] using h1,
        by simpa [queuedIds, processSingleResult] using h2,
        by simpa [processSingleResult] using h3,
        by simpa [queuedIds, processSingleResult] using h4⟩
    | some mr =>
      by_cases hmem : mr.qobuz_track.id ∈ st.existingFavorites
      · refine ⟨?_, ?_, ?_, ?_⟩ <;>
          simp only [processSingleResult, if_pos hmem, queuedIds] <;>
          first
            | exact h1
            | exact h2
            | exact h3
            | exact h4
      · have hq : mr.qobuz_track.id ∉ queuedIds st := fun hin => hmem (h4 _ hin)
        have hqi : mr.qobuz_track.id ∉ init := fun hin => hmem (h3 _ hin)
        refine ⟨?_, ?_, ?_, ?_⟩
        · simp only [processSingleResult, if_neg hmem, queuedIds, List.map_append,
            List.map_cons, List.map_nil, ← List.append_assoc]
          rw [List.nodup_append]
          refine ⟨h1, by simp, ?_⟩
          intro a ha hb
          simp only [List.mem_singleton] at hb
          subst hb
          exact hq (by simpa [queuedIds] using ha)
        · intro i hi
          simp only [processSingleResult, if_neg hmem, queuedIds, List.map_append,
            List.map_cons, List.map_nil, ← List.append_assoc,
            List.mem_append, List.mem_singleton] at hi
          rcases hi with hi | rfl
          · exact h2 i (by simpa [queuedIds] using hi)
          · exact hqi
        · intro i hi
          simp only [processSingleResult, if_neg hmem, List.mem_append,
            List.mem_singleton]
          exact Or.inl (h3 i hi)
        · intro i hi
          simp only [processSingleResult, if_neg hmem, queuedIds, List.map_append,
            List.map_cons, List.map_nil, ← List.append_assoc,
            List.mem_append, List.mem_singleton] at hi
          simp only [processSingleResult, if_neg hmem, List.mem_append,
            List.mem_singleton]
          rcases hi with hi | rfl
          · exact Or.inl (h4 i (by simpa [queuedIds] using hi))
          · exact Or.inr rfl

theorem queuedIds_flush (dryRun : Bool) (st : SyncState) :
    queuedIds (flushFavorites dryRun st) = queuedIds st := by
  unfold flushFavorites
  split
  · simp [queuedIds, List.flatten_append]
  · rfl

theorem existing_flush (dryRun : Bool) (st : SyncState) :
    (flushFavorites dryRun st).existingFavorites = st.existingFavorites := by
  unfold flushFavorites
  split <;> rfl

theorem syncInv_flush {init : List Int} {st : SyncState} (h : SyncInv init st)
    (dryRun : Bool) : SyncInv init (flushFavorites dryRun st) := by
  obtain ⟨h1, h2, h3, h4⟩ := h
  refine ⟨?_, ?_, ?_, ?_⟩ <;>
    simp only [queuedIds_flush, existing_flush] <;>
    first
      | exact h1
      | exact h2
      | exact h3
      | exact h4

theorem syncInv_foldl {init : List Int} :
    ∀ (l : List ProcResult) (st : SyncState), SyncInv init st →
      SyncInv init (l.foldl processSingleResult st) := by
  intro l
  induction l with
  | nil => intro st h; simpa using h
  | cons x xs ih =>
    intro st h
    simp only [List.foldl_cons]
    exact ih _ (syncInv_processSingleResult h x)

theorem syncInv_stepChunk {init : List Int} {st : SyncState} (h : SyncInv init st)
    (dryRun : Bool) (chunk : List ProcResult) :
    SyncInv init (stepChunk dryRun st chunk) := by
  simp only [stepChunk]
  split
  · exact syncInv_flush (syncInv_foldl chunk st h) dryRun
  · exact syncInv_foldl chunk st h

theorem syncInv_chunks {init : List Int} :
    ∀ (chunks : List (List ProcResult)) (st : SyncState) (dryRun : Bool),
      SyncInv init st → SyncInv init (chunks.foldl (stepChunk dryRun) st) := by
  intro chunks
  induction chunks with
  | nil => intro st _ h; simpa using h
  | cons c cs ih =>
    intro st dryRun h
    simp only [List.foldl_cons]
    exact ih _ dryRun (syncInv_stepChunk h dryRun c)

theorem syncInv_init (isrcMap : List (String × Int)) :
    SyncInv (isrcMap.map Prod.snd)
      { report := emptyReport, existingFavorites := isrcMap.map Prod.snd,
        pendingFavorites := [], flushedBatches := [] } := by
  refine ⟨by simp [queuedIds], by simp [queuedIds], fun i hi => hi,
    by simp [queuedIds]⟩

/-!
### The dry-run relation
-/

theorem flushFavorites_true (st : SyncState) : flushFavorites true st = st := by
  unfold flushFavorites
  simp

theorem flush_report (dryRun : Bool) (st : SyncState) :
    (flushFavorites dryRun st).report = st.report := by
  unfold flushFavorites
  split <;> rfl

theorem dryRel_processSingleResult {d r : SyncState} (h : DryRel d r)
    (x : ProcResult) :
    DryRel (processSingleResult d x) (processSingleResult r x) := by
  obtain ⟨hrep, hex, hfl⟩ := h
  obtain ⟨status, sid, trk, mres, sugs⟩ := x
  cases status with
  | skipped => exact ⟨by simp [processSingleResult, hrep], by simp [processSingleResult, hex],
      by simp [processSingleResult, hfl]⟩
  | alreadyInQobuz => exact ⟨by simp [processSingleResult, hrep],
      by simp [processSingleResult, hex], by simp [processSingleResult, hfl]⟩
  | notMatched => exact ⟨by simp [processSingleResult, hrep],
      by simp [processSingleResult, hex], by simp [processSingleResult, hfl]⟩
  | matched =>
    cases mres with
    | none => exact ⟨by simp [processSingleResult, hrep],
        by simp [processSingleResult, hex], by simp [processSingleResult, hfl]⟩
    | some mr =>
      by_cases hmem : mr.qobuz_track.id ∈ r.existingFavorites
      · have hmem' : mr.qobuz_track.id ∈ d.existingFavorites := hex ▸ hmem
        exact ⟨by simp [processSingleResult, if_pos hmem, if_pos hmem', hrep],
          by simp [processSingleResult, if_pos hmem, if_pos hmem', hex],
          by simp [processSingleResult, if_pos hmem, if_pos hmem', hfl]⟩
      · have hmem' : mr.qobuz_track.id ∉ d.existingFavorites := hex ▸ hmem
        exact ⟨by simp [processSingleResult, if_neg hmem, if_neg hmem', hrep],
          by simp [processSingleResult, if_neg hmem, if_neg hmem', hex],
          by simp [processSingleResult, if_neg hmem, if_neg hmem', hfl]⟩

theorem dryRel_foldl :
    ∀ (l : List ProcResult) {d r : SyncState}, DryRel d r →
      DryRel (l.foldl processSingleResult d) (l.foldl processSingleResult r) := by
  intro l
  induction l with
  | nil => intro d r h; simpa using h
  | cons x xs ih =>
    intro d r h
    simp only [List.foldl_cons]
    exact ih (dryRel_processSingleResult h x)

theorem dryRel_flush {d r : SyncState} (h : DryRel d r) :
    DryRel (flushFavorites true d) (flushFavorites false r) := by
  obtain ⟨hrep, hex, hfl⟩ := h
  rw [flushFavorites_true]
  exact ⟨by rw [flush_report]; exact hrep, by rw [existing_flush]; exact hex, hfl⟩

theorem dryRel_stepChunk {d r : SyncState} (h : DryRel d r)
    (chunk : List ProcResult) :
    DryRel (stepChunk true d chunk) (stepChunk false r chunk) := by
  have hf := dryRel_foldl chunk h
  simp only [stepChunk]
  split <;> split
  · exact dryRel_flush hf
  · rw [flushFavorites_true]
    exact hf
  · obtain ⟨hrep, hex, hfl⟩ := hf
    exact ⟨by rw [flush_report]; exact hrep, by rw [existing_flush]; exact hex, hfl⟩
  · exact hf

theorem dryRel_chunks :
    ∀ (chunks : List (List ProcResult)) {d r : SyncState}, DryRel d r →
      DryRel (chunks.foldl (stepChunk true) d) (chunks.foldl (stepChunk false) r) := by
  intro chunks
  induction chunks with
  | nil => intro d r h; simpa using h
  | cons c cs ih =>
    intro d r h
    simp only [List.foldl_cons]
    exact ih (dryRel_stepChunk h c)

/-!
### Suggestion-list lemmas
-/

theorem buildSuggestions_length (thr : ℚ) (l : List ScoredCandidate) :
    (buildSuggestions thr l).length ≤ 5 := by
  unfold buildSuggestions
  rw [List.length_map]
  exact List.length_take_le _ _

theorem buildSuggestions_sorted {l : List ScoredCandidate}
    (hp : l.Pairwise (fun a b => b.score ≤ a.score)) (thr : ℚ) :
    (buildSuggestions thr l).Pairwise (fun a b => b.score ≤ a.score) := by
  unfold buildSuggestions
  rw [List.pairwise_map]
  have hsub : ((((l.take 10).filter
      (fun sc => decide (thr ≤ sc.score ∧
        MIN_ARTIST_SCORE_FOR_SUGGESTION ≤ sc.artistScore))).take 5)).Sublist l :=
    ((List.take_sublist _ _).trans (List.filter_sublist _)).trans (List.take_sublist _ _)
  exact (hp.sublist hsub).imp (fun h => round1_mono h)

theorem buildSuggestions_artist_floor {thr : ℚ} {l : List ScoredCandidate}
    {sug : Suggestion} (h : sug ∈ buildSuggestions thr l) :
    MIN_ARTIST_SCORE_FOR_SUGGESTION ≤ sug.artist_score := by
  unfold buildSuggestions at h
  rcases List.mem_map.mp h with ⟨sc, hsc, rfl⟩
  have hmem := List.mem_of_mem_take hsc
  have hfilt := (List.mem_filter.mp hmem).2
  have hprop := of_decide_eq_true hfilt
  show MIN_ARTIST_SCORE_FOR_SUGGESTION ≤ round1 sc.artistScore
  unfold MIN_ARTIST_SCORE_FOR_SUGGESTION at hprop ⊢
  exact round1_ge_fifty hprop.2

/-!
## The claims
-/

attribute [local semireducible] Rat.mul Rat.add Rat.sub Rat.inv Rat.ofScientific

set_option maxRecDepth 100000

/-- C1: for every source track carrying a non-empty (truthy) `isrc` for which
the client's ISRC lookup finds a candidate — in particular whenever the
candidate pool holds an item whose key equals the source key
case-insensitively — `match_track_with_suggestions` returns exactly that
candidate with match type `"isrc"` and score exactly `100` and an empty
suggestion list.  The conclusion holds for every oracle and every candidate
content, so it does not depend on how dissimilar the candidate's title or
artist is, and the fuzzy and fallback stages cannot influence the result. -/
theorem C1_exact_key_short_circuit (api : QobuzApi) (t : SpotifyTrack) (thr : ℚ)
    (k : String) (q : Candidate) (hk : t.isrc = some k) (hne : k ≠ "")
    (hq : searchByIsrc api k t.title t.artist = some q) :
    matchTrackWithSuggestions api t thr =
      (some { qobuz_track := q, match_type := "isrc", score := 100 }, []) := by
  have hstage : isrcStage api t =
      some { qobuz_track := q, match_type := "isrc", score := 100 } := by
    unfold isrcStage matchByIsrc
    rw [hk]
    simp only [Option.getD_some]
    rw [if_pos hne, hq]
    rfl
  unfold matchTrackWithSuggestions
  rw [hstage]

/-- C1 witness: the exact-ISRC scenario — candidate with a case-insensitively
matching key but a totally different title and artist. -/
theorem C1_witness :
    exactKeyTrack.isrc = some "usrc17607839" ∧
    searchByIsrc exactKeyApi "usrc17607839" exactKeyTrack.title exactKeyTrack.artist =
      some (rawToCandidate exactKeyItem) ∧
    matchTrackWithSuggestions exactKeyApi exactKeyTrack 40 =
      (some { qobuz_track := rawToCandidate exactKeyItem, match_type := "isrc",
              score := 100 }, []) :=
  ⟨rfl, by decide,
   C1_exact_key_short_circuit exactKeyApi exactKeyTrack 40 "usrc17607839"
     (rawToCandidate exactKeyItem) rfl (by decide) (by decide)⟩

/-- C2 counterexample: two candidates that are textually identical (equal
combined score 100, both clearing `MIN_COMBINED_SCORE`), with duration deltas
4000 ms and 1000 ms, both within the 5000 ms tolerance; the search returns the
larger-delta candidate first, and the primary fuzzy stage accepts that
larger-delta candidate — not the smaller-delta one — because the sort is
stable and ignores the delta. -/
theorem C2_counterexample :
    scoreCandidate tieTrack tieFarCand = scoreCandidate tieTrack tieNearCand ∧
    searchCandidates tieApi tieTrack.title tieTrack.artist =
      [tieFarCand, tieNearCand] ∧
    MIN_COMBINED_SCORE ≤ scoreCandidate tieTrack tieNearCand ∧
    |tieTrack.duration - tieNearCand.duration| = 1000 ∧
    |tieTrack.duration - tieFarCand.duration| = 4000 ∧
    |tieTrack.duration - tieFarCand.duration| ≤
      getDurationTolerance tieTrack.duration ∧
    (matchTrackWithSuggestions tieApi tieTrack 40).1 =
      some { qobuz_track := tieFarCand, match_type := "fuzzy", score := 100 } := by
  decide

/-- C2 amended: the primary fuzzy stage accepts only the head of the stable
score-descending sort of the candidate pool (so for equal combined scores the
candidate listed first in the search results is the one accepted, regardless
of duration delta), that head's combined score clears `MIN_COMBINED_SCORE`,
and the accepted candidate's duration delta never exceeds the source-length
bucket tolerance. -/
theorem C2_amended_primary_gate (api : QobuzApi) (t : SpotifyTrack) (thr : ℚ)
    (r : MatchResult) (sugs : List Suggestion)
    (h : matchTrackWithSuggestions api t thr = (some r, sugs))
    (hf : r.match_type = "fuzzy") :
    |t.duration - r.qobuz_track.duration| ≤ getDurationTolerance t.duration ∧
    ∃ best rest, sortedCandidatesOf api t = best :: rest ∧
      r.qobuz_track = best.candidate ∧ r.score = best.score ∧
      MIN_COMBINED_SCORE ≤ best.score := by
  unfold matchTrackWithSuggestions at h
  split at h
  · rename_i r0 heq
    simp only [Prod.mk.injEq] at h
    cases Option.some.inj h.1
    rw [(isrcStage_shape heq).1] at hf
    exact absurd hf (by decide)
  · split at h
    · rename_i r0 heq
      simp only [Prod.mk.injEq] at h
      cases Option.some.inj h.1
      rcases primaryStage_shape heq with ⟨best, rest, hsort, rfl, hscore, hdur⟩
      have hbm : best ∈ sortedCandidatesOf api t := by
        rw [hsort]; exact List.mem_cons_self _ _
      rcases mem_sortedCandidatesOf hbm with ⟨c, _, rfl⟩
      refine ⟨?_, mkScored t c, rest, hsort, rfl, rfl, hscore⟩
      simpa [mkScored] using hdur
    · split at h
      · rename_i r0 heq
        simp only [Prod.mk.injEq] at h
        cases Option.some.inj h.1
        exact absurd hf (matchAlternative_shape heq).2.2
      · simp at h

/-- C2 amended witness: the tie fixture exercises the amended statement — the
accepted candidate is the sort's head (the first-listed, larger-delta one)
and its delta is within tolerance. -/
theorem C2_amended_witness :
    |tieTrack.duration - tieFarCand.duration| ≤
      getDurationTolerance tieTrack.duration ∧
    ∃ best rest, sortedCandidatesOf tieApi tieTrack = best :: rest ∧
      tieFarCand = best.candidate ∧ (100 : ℚ) = best.score ∧
      MIN_COMBINED_SCORE ≤ best.score :=
  C2_amended_primary_gate tieApi tieTrack 40
    { qobuz_track := tieFarCand, match_type := "fuzzy", score := 100 } []
    (by decide) rfl

/-- C3 counterexample: in a favorites run with exactly 60 streamed tracks,
all confirmed matches (none skipped, none already present), the driver
performs 2 write-back calls, not 3, and their sizes are not 25/25/10. -/
theorem C3_counterexample :
    ((runFavoritesSync echoApi false [] [] stream60).2).length = 2 ∧
    ((runFavoritesSync echoApi false [] [] stream60).2).map List.length ≠
      [25, 25, 10] := by
  decide

/-- C3 amended: with 60 confirmed matches the driver performs exactly 2 batch
write-back calls, of sizes 50 and 10 — the `FAVORITE_BATCH = 25` flush
threshold is only checked after each full `BATCH_SIZE = 50` processing batch,
and a flush posts the entire pending list in a single call. -/
theorem C3_amended_batching :
    ((runFavoritesSync echoApi false [] [] stream60).2).map List.length =
      [50, 10] ∧
    (runFavoritesSync echoApi false [] [] stream60).1.tracksMatched = 60 ∧
    (runFavoritesSync echoApi false [] [] stream60).1.tracksSkipped = 0 ∧
    (runFavoritesSync echoApi false [] [] stream60).1.tracksAlreadyInQobuz = 0 := by
  decide

/-- C4: no suggestion returned by `match_track_with_suggestions` ever carries
an artist component score below `MIN_ARTIST_SCORE_FOR_SUGGESTION = 50`,
whatever the candidate pool, the track and the threshold (in particular even
when a candidate's title score is 100). -/
theorem C4_suggestion_artist_floor (api : QobuzApi) (t : SpotifyTrack) (thr : ℚ)
    (sug : Suggestion) (h : sug ∈ (matchTrackWithSuggestions api t thr).2) :
    MIN_ARTIST_SCORE_FOR_SUGGESTION ≤ sug.artist_score := by
  unfold matchTrackWithSuggestions at h
  split at h
  · simp at h
  · split at h
    · simp at h
    · split at h
      · simp at h
      · exact buildSuggestions_artist_floor h

/-- C4 witness: a candidate with title score and artist score 100 whose
duration is off by 100 s is rejected by every stage and surfaces as a
suggestion; its recorded artist score is at least the floor. -/
theorem C4_witness :
    mkSuggestion (mkScored farTrack (rawToCandidate farItem)) ∈
      (matchTrackWithSuggestions farApi farTrack 40).2 ∧
    MIN_ARTIST_SCORE_FOR_SUGGESTION ≤
      (mkSuggestion (mkScored farTrack (rawToCandidate farItem))).artist_score :=
  ⟨by decide,
   C4_suggestion_artist_floor farApi farTrack 40
     (mkSuggestion (mkScored farTrack (rawToCandidate farItem))) (by decide)⟩

/-- C5 counterexample: the candidate title `"Yesterday - Remastered 2009"`
does not normalize to `"yesterday"`: the remaster suffix has no enclosing
bracket, and `REMASTER_PATTERN` only strips bracketed markers, so the
normalized title keeps the suffix. -/
theorem C5_counterexample :
    normalize "Yesterday - Remastered 2009" = "yesterday - remastered 2009" ∧
    normalize "Yesterday - Remastered 2009" ≠ "yesterday" := by
  decide

/-- C5 amended: in the scenario, the source title normalizes to
`"yesterday"` but the candidate title normalizes to
`"yesterday - remastered 2009"` (remaster-suffix stripping does not fire
because the suffix is not bracketed); the candidate is nevertheless accepted
as a fuzzy match with combined score 100 (the substring/token-set algorithms
give title score 100, and `"The Beatles"`/`"Beatles"` both normalize to
`"beatles"`), the 1000 ms duration delta lying within the <4-minute bucket's
5000 ms tolerance. -/
theorem C5_amended_scenario :
    normalize "Yesterday" = "yesterday" ∧
    normalize "The Beatles" = "beatles" ∧
    normalize "Beatles" = "beatles" ∧
    |yesterdayTrack.duration - yesterdayCand.duration| = 1000 ∧
    getDurationTolerance yesterdayTrack.duration = 5000 ∧
    matchTrackWithSuggestions yesterdayApi yesterdayTrack 40 =
      (some { qobuz_track := yesterdayCand, match_type := "fuzzy",
              score := 100 }, []) := by
  decide

/-- C6: every `MatchResult` produced by any path of the matcher has a score
in `[0, 100]`, and every exact-key (`"isrc"`) match reports score exactly
100. -/
theorem C6_score_bounds (api : QobuzApi) (t : SpotifyTrack) (thr : ℚ)
    (r : MatchResult) (sugs : List Suggestion)
    (h : matchTrackWithSuggestions api t thr = (some r, sugs)) :
    0 ≤ r.score ∧ r.score ≤ 100 ∧ (r.match_type = "isrc" → r.score = 100) := by
  unfold matchTrackWithSuggestions at h
  split at h
  · rename_i r0 heq
    simp only [Prod.mk.injEq] at h
    cases Option.some.inj h.1
    rcases isrcStage_shape heq with ⟨_, hsc⟩
    rw [hsc]
    exact ⟨by norm_num, by norm_num, fun _ => rfl⟩
  · split at h
    · rename_i r0 heq
      simp only [Prod.mk.injEq] at h
      cases Option.some.inj h.1
      rcases primaryStage_shape heq with ⟨best, rest, hsort, rfl, _, _⟩
      have hbm : best ∈ sortedCandidatesOf api t := by
        rw [hsort]; exact List.mem_cons_self _ _
      rcases mem_sortedCandidatesOf hbm with ⟨c, _, rfl⟩
      have hb := scoreCandidate_bounds t c
      exact ⟨hb.1, hb.2, fun habs => absurd habs (by simp)⟩
    · split at h
      · rename_i r0 heq
        simp only [Prod.mk.injEq] at h
        cases Option.some.inj h.1
        rcases matchAlternative_shape heq with ⟨hb, hni, _⟩
        exact ⟨hb.1, hb.2, fun habs => absurd habs hni⟩
      · simp at h

/-- C6 witness: the exact-ISRC fixture produces a match, whose score the
theorem bounds (and pins to 100 on the `"isrc"` path). -/
theorem C6_witness :
    0 ≤ ({ qobuz_track := rawToCandidate exactKeyItem, match_type := "isrc",
           score := 100 } : MatchResult).score ∧
    ({ qobuz_track := rawToCandidate exactKeyItem, match_type := "isrc",
       score := 100 } : MatchResult).score ≤ 100 ∧
    (({ qobuz_track := rawToCandidate exactKeyItem, match_type := "isrc",
        score := 100 } : MatchResult).match_type = "isrc" →
      ({ qobuz_track := rawToCandidate exactKeyItem, match_type := "isrc",
         score := 100 } : MatchResult).score = 100) :=
  C6_score_bounds exactKeyApi exactKeyTrack 40 _ [] (by decide)

/-- C7: the suggestion list returned by `match_track_with_suggestions` has
length at most 5, its recorded scores are non-increasing, and it is empty
whenever a `MatchResult` is returned. -/
theorem C7_suggestions_shape (api : QobuzApi) (t : SpotifyTrack) (thr : ℚ)
    (res : Option MatchResult) (sugs : List Suggestion)
    (h : matchTrackWithSuggestions api t thr = (res, sugs)) :
    sugs.length ≤ 5 ∧ sugs.Pairwise (fun a b => b.score ≤ a.score) ∧
    (res.isSome → sugs = []) := by
  unfold matchTrackWithSuggestions at h
  split at h
  · simp only [Prod.mk.injEq] at h
    rw [← h.2]
    exact ⟨by simp, by simp, fun _ => rfl⟩
  · split at h
    · simp only [Prod.mk.injEq] at h
      rw [← h.2]
      exact ⟨by simp, by simp, fun _ => rfl⟩
    · split at h
      · simp only [Prod.mk.injEq] at h
        rw [← h.2]
        exact ⟨by simp, by simp, fun _ => rfl⟩
      · simp only [Prod.mk.injEq] at h
        rw [← h.1, ← h.2]
        refine ⟨buildSuggestions_length _ _, ?_, by simp⟩
        exact buildSuggestions_sorted (sortByScoreDesc_pairwise _) thr

/-- C7 witness: a run that ends with a non-empty suggestion list. -/
theorem C7_witness :
    (matchTrackWithSuggestions farApi farTrack 40).2.length ≤ 5 ∧
    (matchTrackWithSuggestions farApi farTrack 40).2.Pairwise
      (fun a b => b.score ≤ a.score) ∧
    ((matchTrackWithSuggestions farApi farTrack 40).1.isSome →
      (matchTrackWithSuggestions farApi farTrack 40).2 = []) :=
  C7_suggestions_shape farApi farTrack 40 _ _ rfl

/-- C8: when every transport request fails, `_search_candidates` returns the
empty list and `search_by_isrc` returns `None` — no error escapes to the
caller (in the embedding all functions are total, so
`match_track_with_suggestions` always returns a pair) — and the whole engine
behaves exactly as if every search had returned zero candidates. -/
theorem C8_retrieval_failure_swallowed (err : String → Nat → String)
    (title artist isrc th ah : String) (t : SpotifyTrack) (thr : ℚ) :
    searchCandidates (apiFail err) title artist = [] ∧
    searchByIsrc (apiFail err) isrc th ah = none ∧
    matchTrackWithSuggestions (apiFail err) t thr =
      matchTrackWithSuggestions apiEmpty t thr := by
  have hsc : ∀ (ti ar : String), searchCandidates (apiFail err) ti ar =
      searchCandidates apiEmpty ti ar := by
    intro ti ar
    simp only [searchCandidates, apiFail, apiEmpty]
    split <;> rfl
  have hscF : ∀ (ti ar : String), searchCandidates (apiFail err) ti ar = [] := by
    intro ti ar
    simp only [searchCandidates, apiFail]
    split <;> rfl
  have hsi : ∀ (i h1 h2 : String), searchByIsrc (apiFail err) i h1 h2 =
      searchByIsrc apiEmpty i h1 h2 := by
    intro i h1 h2
    simp only [searchByIsrc, apiFail, apiEmpty, findIsrcMatch, List.find?_nil]
    split <;> rfl
  refine ⟨hscF title artist, by simp only [searchByIsrc, apiFail], ?_⟩
  unfold matchTrackWithSuggestions isrcStage matchByIsrc primaryStage
    sortedCandidatesOf scoredCandidatesOf buildSuggestions matchAlternative
  simp only [hsc, hsi]

/-- C9: within one favorites-sync run — whatever the oracle, the resume set,
the pre-fetched ISRC map and the stream — the union of all batch write-back
calls contains no duplicate Qobuz id, and no id that was in the pre-fetched
existing-favorites set. -/
theorem C9_no_duplicate_writebacks (api : QobuzApi) (dryRun : Bool)
    (alreadySynced : List String) (isrcMap : List (String × Int))
    (stream : List (SpotifyTrack × String)) :
    ((runFavoritesSync api dryRun alreadySynced isrcMap stream).2).flatten.Nodup ∧
    ∀ i ∈ ((runFavoritesSync api dryRun alreadySynced isrcMap stream).2).flatten,
      i ∉ isrcMap.map Prod.snd := by
  have hinv :=
    syncInv_flush
      (syncInv_chunks
        (chunkList 50 (stream.map (processTrack api alreadySynced isrcMap)))
        { report := emptyReport, existingFavorites := isrcMap.map Prod.snd,
          pendingFavorites := [], flushedBatches := [] }
        dryRun (syncInv_init isrcMap))
      dryRun
  obtain ⟨h1, h2, _, _⟩ := hinv
  constructor
  · exact (List.nodup_append.mp h1).1
  · intro i hi
    exact h2 i (List.mem_append_left _ hi)

/-- C10: a dry favorites run performs no write-back call at all, and its
report (counters, missing and synced lists) is exactly the report of the
non-dry run over the same inputs. -/
theorem C10_dry_run_frame (api : QobuzApi) (alreadySynced : List String)
    (isrcMap : List (String × Int)) (stream : List (SpotifyTrack × String)) :
    (runFavoritesSync api true alreadySynced isrcMap stream).1 =
      (runFavoritesSync api false alreadySynced isrcMap stream).1 ∧
    (runFavoritesSync api true alreadySynced isrcMap stream).2 = [] := by
  have hrel :=
    dryRel_flush
      (dryRel_chunks
        (chunkList 50 (stream.map (processTrack api alreadySynced isrcMap)))
        (d := { report := emptyReport, existingFavorites := isrcMap.map Prod.snd,
                pendingFavorites := [], flushedBatches := [] })
        (r := { report := emptyReport, existingFavorites := isrcMap.map Prod.snd,
                pendingFavorites := [], flushedBatches := [] })
        ⟨rfl, rfl, rfl⟩)
  exact ⟨hrel.1, hrel.2.2⟩

end S2Q
